import Mathlib

/-!
Verification of the ADT command-center core (server runtime) against its
specification.  The Python sources are shallowly embedded: strings are
`List Char`, SQLite tables are Lean lists in rowid (insertion) order,
`datetime.now()` values are abstract `Nat` clock inputs, and the random
HMAC key / SHA-256 primitive is an abstract function parameter.  Each
definition is translated from the corresponding Python function; doc
comments name the source location.
-/

namespace ADT

/-! ## Scrubber (src/ai_knowledge/server/scrubber.py)

Python `re` patterns are embedded as a small regex AST with a
backtracking CPS matcher.  The matcher mirrors Python semantics on the
fixed pattern set of `SecretScrubber.PATTERNS`: alternation prefers the
left branch, repetition is greedy with backtracking.  Recursion is fuel
bounded; every repetition body in `PATTERNS` consumes at least one
character, so the fuel supplied by `matchAt` is never exhausted there. -/

/-- Regex AST covering exactly the constructs used by
`SecretScrubber.PATTERNS`: character classes, concatenation,
alternation, bounded/unbounded repetition `{lo,hi}`, and the
single-character negative lookbehind/lookahead of the long-hex pattern. -/
inductive Regex where
  | eps : Regex
  | cls (p : Char → Bool) : Regex
  | cat (r1 r2 : Regex) : Regex
  | alt (r1 r2 : Regex) : Regex
  | rep (lo : Nat) (hi : Option Nat) (r : Regex) : Regex
  | lbNeg (p : Char → Bool) : Regex
  | laNeg (p : Char → Bool) : Regex

/-- Decrement an optional repetition bound. -/
def decrHi : Option Nat → Option Nat
  | none => none
  | some n => some (n - 1)

/-- Backtracking CPS matcher.  `rev` is the reverse of the text before
the current position (for lookbehind), `rest` the remaining text; the
continuation receives the updated pair.  Fuel decreases on every
unfolding step; `matchAt` supplies enough fuel that exhaustion is
unreachable for the patterns of `PATTERNS`. -/
def Regex.runF : Nat → Regex → List Char → List Char →
    (List Char → List Char → Option (List Char × List Char)) →
    Option (List Char × List Char)
  | 0, _, _, _, _ => none
  | fuel + 1, r, rev, rest, k =>
    match r with
    | .eps => k rev rest
    | .cls p =>
      match rest with
      | [] => none
      | c :: rest' => if p c then k (c :: rev) rest' else none
    | .cat r1 r2 =>
      Regex.runF fuel r1 rev rest (fun v s => Regex.runF fuel r2 v s k)
    | .alt r1 r2 =>
      match Regex.runF fuel r1 rev rest k with
      | some x => some x
      | none => Regex.runF fuel r2 rev rest k
    | .rep lo hi r' =>
      if hi = some 0 then
        if lo = 0 then k rev rest else none
      else
        let more := Regex.runF fuel r' rev rest
          (fun v s => Regex.runF fuel (.rep (lo - 1) (decrHi hi) r') v s k)
        if lo = 0 then
          match more with
          | some x => some x
          | none => k rev rest
        else more
    | .lbNeg p =>
      match rev with
      | [] => k rev rest
      | c :: _ => if p c then none else k rev rest
    | .laNeg p =>
      match rest with
      | [] => k rev rest
      | c :: _ => if p c then none else k rev rest

/-- Size of a regex, used to bound the matcher fuel. -/
def Regex.sizeR : Regex → Nat
  | .eps => 1
  | .cls _ => 1
  | .cat r1 r2 => r1.sizeR + r2.sizeR + 1
  | .alt r1 r2 => r1.sizeR + r2.sizeR + 1
  | .rep _ _ r => r.sizeR + 1
  | .lbNeg _ => 1
  | .laNeg _ => 1

/-- Length of the match of `r` at the current position (Python
`re.match` at an offset): `some n` when `r` matches consuming `n`
characters, choosing branches with Python's backtracking priority. -/
def matchAt (r : Regex) (rev rest : List Char) : Option Nat :=
  match Regex.runF ((r.sizeR + 2) * (rest.length + 2)) r rev rest
      (fun v s => some (v, s)) with
  | some (_, s) => some (rest.length - s.length)
  | none => none

/-- One pass of `pattern.sub(replacement, text)` (Python `re.sub`):
scan left to right, replace each non-overlapping leftmost match by `m`.
A zero-width match is replaced and the following character copied, as
in Python ≥ 3.7; no pattern in `PATTERNS` can match the empty string. -/
def reSubF (r : Regex) (m : List Char) : Nat → List Char → List Char → List Char
  | 0, _, rest => rest
  | fuel + 1, rev, rest =>
    match matchAt r rev rest with
    | some n =>
      if n = 0 then
        match rest with
        | [] => m
        | c :: rest' => m ++ c :: reSubF r m fuel (c :: rev) rest'
      else
        m ++ reSubF r m fuel ((rest.take n).reverse ++ rev) (rest.drop n)
    | none =>
      match rest with
      | [] => []
      | c :: rest' => c :: reSubF r m fuel (c :: rev) rest'

/-- `pattern.sub(m, text)`. -/
def reSub (r : Regex) (m text : List Char) : List Char :=
  reSubF r m (text.length + 1) [] text

/-- Python `s in t` (substring test). -/
def containsSub : List Char → List Char → Bool
  | t, s =>
    s.isPrefixOf t ||
      match t with
      | [] => false
      | _ :: t' => containsSub t' s

/-- Python `t.replace(s, m)`: replace each non-overlapping occurrence
of `s` left to right, continuing after the inserted replacement.  For
the empty pattern Python inserts `m` between every character and at
both ends. -/
def replaceAllF : Nat → List Char → List Char → List Char → List Char
  | 0, t, _, _ => t
  | fuel + 1, t, s, m =>
    if s = [] then m ++ (t.map (fun c => c :: m)).flatten
    else
      match t with
      | [] => []
      | c :: rest =>
        if s.isPrefixOf (c :: rest) then
          m ++ replaceAllF fuel ((c :: rest).drop s.length) s m
        else c :: replaceAllF fuel rest s m

/-- Python `t.replace(s, m)`. -/
def replaceAll (t s m : List Char) : List Char :=
  replaceAllF (t.length + 1) t s m

/-- Single case-sensitive character. -/
def Regex.chr (c : Char) : Regex := .cls (fun x => x == c)

/-- Case-insensitive character (the `(?i)` flag applied to a letter). -/
def Regex.ichr (c : Char) : Regex :=
  .cls (fun x => x == c.toLower || x == c.toUpper)

/-- Literal string. -/
def Regex.strR (s : List Char) : Regex :=
  s.foldr (fun c r => .cat (Regex.chr c) r) .eps

/-- Case-insensitive literal string. -/
def Regex.istrR (s : List Char) : Regex :=
  s.foldr (fun c r => .cat (Regex.ichr c) r) .eps

/-- Character class listing its members. -/
def Regex.oneOf (s : List Char) : Regex := .cls (fun x => s.contains x)

/-- Python `\w` (ASCII range; the scrubbed texts are ASCII). -/
def wordB (c : Char) : Bool := c.isAlphanum || c == '_'

/-- Python `\s`. -/
def spaceB (c : Char) : Bool :=
  c == ' ' || c == '\t' || c == '\n' || c == '\r' || c == '\x0b' || c == '\x0c'

/-- `[a-fA-F0-9]`. -/
def hexB (c : Char) : Bool :=
  c.isDigit || ('a' ≤ c && c ≤ 'f') || ('A' ≤ c && c ≤ 'F')

/-- `["\']?` -/
def quoteOpt : Regex := .rep 0 (some 1) (Regex.oneOf "\"'".data)

/-- `\s*` -/
def wsStar : Regex := .rep 0 none (.cls spaceB)

/-- `[=:]` -/
def eqColon : Regex := Regex.oneOf "=:".data

/-- `(?i)(api[_-]?key|apikey|token|secret|password|passwd|pwd|auth|credential)["\']?\s*[=:]\s*["\']?[\w\-\.]+["\']?` -/
def pat1 : Regex :=
  .cat (.alt (.cat (Regex.istrR "api".data)
                (.cat (.rep 0 (some 1) (Regex.oneOf "_-".data)) (Regex.istrR "key".data)))
        (.alt (Regex.istrR "apikey".data)
        (.alt (Regex.istrR "token".data)
        (.alt (Regex.istrR "secret".data)
        (.alt (Regex.istrR "password".data)
        (.alt (Regex.istrR "passwd".data)
        (.alt (Regex.istrR "pwd".data)
        (.alt (Regex.istrR "auth".data) (Regex.istrR "credential".data)))))))))
    (.cat quoteOpt (.cat wsStar (.cat eqColon (.cat wsStar (.cat quoteOpt
      (.cat (.rep 1 none (.cls (fun c => wordB c || c == '-' || c == '.')))
        quoteOpt))))))

/-- `Bearer\s+[\w\-\.]+` -/
def pat2 : Regex :=
  .cat (Regex.strR "Bearer".data)
    (.cat (.rep 1 none (.cls spaceB))
      (.rep 1 none (.cls (fun c => wordB c || c == '-' || c == '.'))))

/-- `sk-[a-zA-Z0-9]{20,}` -/
def pat3 : Regex :=
  .cat (Regex.strR "sk-".data) (.rep 20 none (.cls Char.isAlphanum))

/-- `sk-ant-[a-zA-Z0-9\-]+` -/
def pat4 : Regex :=
  .cat (Regex.strR "sk-ant-".data)
    (.rep 1 none (.cls (fun c => c.isAlphanum || c == '-')))

/-- `ghp_[a-zA-Z0-9]{36}` -/
def pat5 : Regex :=
  .cat (Regex.strR "ghp_".data) (.rep 36 (some 36) (.cls Char.isAlphanum))

/-- `github_pat_[a-zA-Z0-9_]{22,}` -/
def pat6 : Regex :=
  .cat (Regex.strR "github_pat_".data) (.rep 22 none (.cls wordB))

/-- `gho_[a-zA-Z0-9]{36}` -/
def pat7 : Regex :=
  .cat (Regex.strR "gho_".data) (.rep 36 (some 36) (.cls Char.isAlphanum))

/-- `AKIA[0-9A-Z]{16}` -/
def pat8 : Regex :=
  .cat (Regex.strR "AKIA".data)
    (.rep 16 (some 16) (.cls (fun c => c.isDigit || c.isUpper)))

/-- `(?i)aws[_-]?secret[_-]?access[_-]?key\s*[=:]\s*[\w/\+]+` -/
def pat9 : Regex :=
  .cat (Regex.istrR "aws".data)
    (.cat (.rep 0 (some 1) (Regex.oneOf "_-".data))
    (.cat (Regex.istrR "secret".data)
    (.cat (.rep 0 (some 1) (Regex.oneOf "_-".data))
    (.cat (Regex.istrR "access".data)
    (.cat (.rep 0 (some 1) (Regex.oneOf "_-".data))
    (.cat (Regex.istrR "key".data)
    (.cat wsStar (.cat eqColon (.cat wsStar
      (.rep 1 none (.cls (fun c => wordB c || c == '/' || c == '+'))))))))))))

/-- `AIza[0-9A-Za-z\-_]{35}` -/
def pat10 : Regex :=
  .cat (Regex.strR "AIza".data)
    (.rep 35 (some 35) (.cls (fun c => c.isAlphanum || c == '-' || c == '_')))

/-- `xox[baprs]-[0-9a-zA-Z\-]+` -/
def pat11 : Regex :=
  .cat (Regex.strR "xox".data)
    (.cat (Regex.oneOf "baprs".data)
      (.cat (Regex.chr '-')
        (.rep 1 none (.cls (fun c => c.isAlphanum || c == '-')))))

/-- `\d{8,10}:[a-zA-Z0-9_-]{35}` -/
def pat12 : Regex :=
  .cat (.rep 8 (some 10) (.cls Char.isDigit))
    (.cat (Regex.chr ':')
      (.rep 35 (some 35) (.cls (fun c => c.isAlphanum || c == '_' || c == '-'))))

/-- `(?<![a-zA-Z0-9])[a-fA-F0-9]{32,}(?![a-zA-Z0-9])` -/
def pat13 : Regex :=
  .cat (.lbNeg Char.isAlphanum)
    (.cat (.rep 32 none (.cls hexB)) (.laNeg Char.isAlphanum))

/-- `(?i)(key|token|secret|password)\s*[=:]\s*["\']?[A-Za-z0-9+/]{40,}={0,2}["\']?` -/
def pat14 : Regex :=
  .cat (.alt (Regex.istrR "key".data)
        (.alt (Regex.istrR "token".data)
        (.alt (Regex.istrR "secret".data) (Regex.istrR "password".data))))
    (.cat wsStar (.cat eqColon (.cat wsStar (.cat quoteOpt
      (.cat (.rep 40 none (.cls (fun c => c.isAlphanum || c == '+' || c == '/')))
        (.cat (.rep 0 (some 2) (Regex.chr '=')) quoteOpt))))))

/-- `(?i)(postgres|mysql|mongodb|redis)://[^\s]+` -/
def pat15 : Regex :=
  .cat (.alt (Regex.istrR "postgres".data)
        (.alt (Regex.istrR "mysql".data)
        (.alt (Regex.istrR "mongodb".data) (Regex.istrR "redis".data))))
    (.cat (Regex.strR "://".data) (.rep 1 none (.cls (fun c => !spaceB c))))

/-- `-----BEGIN[A-Z ]+PRIVATE KEY-----` -/
def pat16 : Regex :=
  .cat (Regex.strR "-----BEGIN".data)
    (.cat (.rep 1 none (.cls (fun c => c.isUpper || c == ' ')))
      (Regex.strR "PRIVATE KEY-----".data))

/-- `SecretScrubber.PATTERNS` in source order. -/
def PATTERNS : List Regex :=
  [pat1, pat2, pat3, pat4, pat5, pat6, pat7, pat8, pat9, pat10, pat11,
   pat12, pat13, pat14, pat15, pat16]

/-- `SecretScrubber.__init__`: replacement marker, compiled patterns,
known-secret set (modelled as a list in the set's iteration order) and
the minimum secret length. -/
structure SecretScrubber where
  replacement : List Char := "[REDACTED]".data
  compiledPatterns : List Regex := PATTERNS
  knownSecrets : List (List Char) := []
  minSecretLength : Nat := 8

/-- `SecretScrubber.add_known_secret`: add the secret to the set when
it is non-empty and at least `_min_secret_length` characters long. -/
def SecretScrubber.add_known_secret (st : SecretScrubber) (s : List Char) :
    SecretScrubber :=
  if s ≠ [] ∧ st.minSecretLength ≤ s.length then
    if st.knownSecrets.contains s then st
    else { st with knownSecrets := st.knownSecrets ++ [s] }
  else st

/-- One step of the known-secret loop in `SecretScrubber.scrub`. -/
def scrubKnownStep (m : List Char) (r sec : List Char) : List Char :=
  if containsSub r sec then replaceAll r sec m else r

/-- `SecretScrubber.scrub`: exact replacement of each known secret,
then one `re.sub` pass per compiled pattern. -/
def SecretScrubber.scrub (st : SecretScrubber) (text : List Char) : List Char :=
  if text = [] then text
  else
    let r1 := st.knownSecrets.foldl (scrubKnownStep st.replacement) text
    st.compiledPatterns.foldl (fun r p => reSub p st.replacement r) r1

/-- Split on the newline character (Python `content.split("\n")`). -/
def splitNL : List Char → List (List Char)
  | [] => [[]]
  | c :: rest =>
    if c = '\n' then [] :: splitNL rest
    else
      match splitNL rest with
      | [] => [[c]]
      | l :: ls => (c :: l) :: ls

/-- Join with newlines (Python `"\n".join(lines)`). -/
def joinNL : List (List Char) → List Char
  | [] => []
  | [l] => l
  | l :: ls => l ++ '\n' :: joinNL ls

/-- Python `lines[-n:]`: the last `n` elements; `[-0:]` is the whole
list. -/
def lastN (n : Nat) (l : List (List Char)) : List (List Char) :=
  if n = 0 then l else l.drop (l.length - n)

/-- Modelled from the spec: `scrub_log_content` is imported by
`agents/manager.py` but absent from the sources; per the spec, log
reads pass through the Scrubber, so it is modelled as
`SecretScrubber.scrub` of the global scrubber (here an explicit
argument). -/
def scrub_log_content (st : SecretScrubber) (text : List Char) : List Char :=
  st.scrub text

/-- `AgentManager.get_logs`: read the last `lines` lines of the
project log and scrub the result.  The file content is an explicit
argument. -/
def AgentManager.get_logs (st : SecretScrubber) (content : List Char)
    (lines : Nat) : List Char :=
  scrub_log_content st (joinNL (lastN lines (splitNL content)))

/-- Python `str.strip()` whitespace set. -/
def stripB (c : Char) : Bool := spaceB c

/-- Python `s.strip()`. -/
def stripWs (l : List Char) : List Char :=
  ((l.dropWhile stripB).reverse.dropWhile stripB).reverse

/-- The reversed-line scan of `AgentManager._capture_output`: collect
the lines of the last run, between the exit marker and the preceding
start banner. -/
def captureScan : List (List Char) → Bool → List (List Char)
  | [], _ => []
  | line :: rest, inOutput =>
    if ("=== Agent exited".data).isPrefixOf line then captureScan rest true
    else if ("=== Agent started".data).isPrefixOf line ∨
        (List.replicate 50 '=').isPrefixOf line then
      if inOutput then [] else captureScan rest inOutput
    else if inOutput then line :: captureScan rest inOutput
    else captureScan rest inOutput

/-- `AgentManager._capture_output`: extract the last run's output from
the log content and scrub it. -/
def AgentManager.capture_output (st : SecretScrubber) (content : List Char) :
    List Char :=
  scrub_log_content st
    (stripWs (joinNL (captureScan (splitNL content).reverse false).reverse))

/-! ## Task store (src/ai_knowledge/server/db/models.py, repositories.py)

The `tasks` table is a `List Task` in rowid (insertion) order.
`datetime.now()` readings are explicit `Nat` arguments.  Ids come from
`secrets.token_hex(4)`; the spec declares them collision-resistant
within the active set, so runs that create a duplicate id are outside
the disciplined runs considered below. -/

/-- `TaskStatus` (models.py). -/
inductive TaskStatus where
  | pending | in_progress | completed | failed | cancelled | blocked
  | awaiting_review
deriving DecidableEq, Repr

/-- `TaskPriority` (models.py). -/
inductive TaskPriority where
  | low | normal | high | urgent
deriving DecidableEq, Repr

/-- The `CASE priority WHEN 'urgent' THEN 0 … ELSE 3 END` sort key used
by `TaskRepository.list` and `claim_next` (also
`TaskPriority.sort_key`). -/
def TaskPriority.sortKey : TaskPriority → Nat
  | .urgent => 0
  | .high => 1
  | .normal => 2
  | .low => 3

/-- `Task` (models.py), restricted to the columns of the `tasks` table
plus the `depends_on` field of the object model (the table has no
`depends_on` column and no repository writes it). -/
structure Task where
  id : String
  project : String
  description : String
  priority : TaskPriority := .normal
  status : TaskStatus := .pending
  assigned_to : Option String := none
  created_at : Nat
  started_at : Option Nat := none
  completed_at : Option Nat := none
  result : Option String := none
  error : Option String := none
  retry_count : Nat := 0
  max_retries : Nat := 3
  depends_on : Option (List String) := none
deriving DecidableEq, Repr

/-- The task table. -/
abbrev Store : Type := List Task

/-- Strict lexicographic order on `(priority sort key, created_at)`. -/
def keyLt (a b : Nat × Nat) : Bool :=
  a.1 < b.1 || (a.1 == b.1 && a.2 < b.2)

/-- A task's claim-order key. -/
def claimKey (t : Task) : Nat × Nat := (t.priority.sortKey, t.created_at)

/-- One step of the scan for the row selected by the subquery of
`claim_next`. -/
def selStep (acc : Option Task) (t : Task) : Option Task :=
  if t.status = .pending then
    match acc with
    | none => some t
    | some b => if keyLt (claimKey t) (claimKey b) then some t else some b
  else acc

/-- The row selected by the subquery of `claim_next`: the first pending
task in rowid order with minimal `(priority, created_at)` key. -/
def selectNext (st : Store) : Option Task :=
  st.foldl selStep none

/-- The first row with the given id (SQLite `WHERE id = ?` + `fetchone`). -/
def taskBy (st : Store) (tid : String) : Option Task :=
  st.find? (fun t => decide (t.id = tid))

/-- `TaskRepository.create`: insert a fresh pending task; pydantic
defaults fill the remaining columns (`retry_count = 0`,
`max_retries = 3`, no `depends_on`). -/
def TaskRepository.create (id project description : String)
    (priority : TaskPriority) (now : Nat) (st : Store) : Task × Store :=
  let t : Task :=
    { id := id, project := project, description := description,
      priority := priority, created_at := now }
  (t, st ++ [t])

/-- The row rewrite of `claim_next`'s `UPDATE` on the rows matching
the selected id. -/
def claimUpd (assigned_to : String) (now : Nat) (bid : String)
    (t : Task) : Task :=
  if t.id = bid then
    { t with status := .in_progress, assigned_to := some assigned_to,
             started_at := some now }
  else t

/-- `TaskRepository.claim_next`: one `UPDATE … WHERE id = (SELECT …)
RETURNING *` statement — pick the oldest pending row by priority then
`created_at`, set `status = 'in_progress'`, stamp `assigned_to` and
`started_at`, and return the updated row. -/
def TaskRepository.claim_next (assigned_to : String) (now : Nat)
    (st : Store) : Option Task × Store :=
  match selectNext st with
  | none => (none, st)
  | some b =>
    (taskBy (st.map (claimUpd assigned_to now b.id)) b.id,
      st.map (claimUpd assigned_to now b.id))

/-- `TaskRepository.complete`: unconditionally set
`status = 'completed'`, `completed_at`, `result` on the row. -/
def TaskRepository.complete (task_id : String) (result : Option String)
    (now : Nat) (st : Store) : Option Task × Store :=
  match taskBy st task_id with
  | none => (none, st)
  | some _ =>
    let st' : Store := st.map (fun t =>
      if t.id = task_id then
        { t with status := .completed, completed_at := some now,
                 result := result }
      else t)
    (taskBy st' task_id, st')

/-- The row rewrite of `fail`'s `UPDATE` on the rows matching the id,
with the retry count and status computed once from the row first
read. -/
def failUpd (task_id error : String) (now : Nat) (newRetry : Nat)
    (newStatus : TaskStatus) (t : Task) : Task :=
  if t.id = task_id then
    { t with status := newStatus,
             completed_at :=
               if newStatus = .failed then some now else t.completed_at,
             error := some error, retry_count := newRetry,
             assigned_to := none, started_at := none }
  else t

/-- `TaskRepository.fail`: read the row's `retry_count`, increment it,
move to `failed` when the new count reaches `max_retries` and back to
`pending` otherwise, record the error, clear `assigned_to` and
`started_at`; `completed_at` is stamped only on the `failed` branch. -/
def TaskRepository.fail (task_id error : String) (now : Nat) (st : Store) :
    Option Task × Store :=
  match taskBy st task_id with
  | none => (none, st)
  | some task =>
    let newRetry := task.retry_count + 1
    let newStatus : TaskStatus :=
      if task.max_retries ≤ newRetry then .failed else .pending
    (taskBy (st.map (failUpd task_id error now newRetry newStatus)) task_id,
      st.map (failUpd task_id error now newRetry newStatus))

/-- `TaskRepository.cancel`: move to `cancelled`, guarded by
`status IN ('pending', 'blocked')`; returns `none` when no row
matched. -/
def TaskRepository.cancel (task_id : String) (now : Nat) (st : Store) :
    Option Task × Store :=
  match st.find? (fun t => decide (t.id = task_id) &&
      (decide (t.status = .pending) || decide (t.status = .blocked))) with
  | none => (none, st)
  | some _ =>
    let st' : Store := st.map (fun t =>
      if t.id = task_id ∧ (t.status = .pending ∨ t.status = .blocked) then
        { t with status := .cancelled, completed_at := some now }
      else t)
    (st'.find? (fun t => decide (t.id = task_id) &&
       decide (t.status = .cancelled)), st')

/-- Stable insertion by claim-order key (a task moves ahead only of
strictly greater keys), modelling the `ORDER BY` of
`TaskRepository.list`. -/
def insertByKey (t : Task) : List Task → List Task
  | [] => [t]
  | b :: rest =>
    if keyLt (claimKey t) (claimKey b) then t :: b :: rest
    else b :: insertByKey t rest

/-- Pending tasks in claim order. -/
def sortedPending (st : Store) : List Task :=
  (st.filter (fun t => decide (t.status = .pending))).foldr insertByKey []

/-- `TaskRepository.list_pending(limit = 10)` as called by the
orchestrator. -/
def TaskRepository.list_pending (st : Store) : List Task :=
  (sortedPending st).take 10

/-! ## Agent manager and orchestrator
(src/ai_knowledge/server/agents/manager.py, orchestrator.py)

`AgentManager.spawn` touches the filesystem and the process table;
those effects are abstracted into an environment: `projectExists`
models the external project registry lookup and `launch` the outcome
of `_spawn_agent_process` (`Except.error` when `subprocess.Popen`
raises).  `spawn` itself is translated from the source: it raises
(`Except.error`) only for a live duplicate session or an unknown
project; a launch failure is caught and returned as a state with
status `error`. -/

/-- `AgentStatus` (manager.py). -/
inductive AgentStatus where
  | idle | spawning | working | waiting | testing | error | stopped
deriving DecidableEq, Repr

/-- The slice of `AgentState` that `spawn` and `_assign_tasks`
consult: project, status, and whether the recorded pid is a live
process. -/
structure AgentM where
  project : String
  status : AgentStatus
  pidAlive : Bool
deriving DecidableEq, Repr

/-- Environment of one orchestrator tick. -/
structure OrchEnv where
  agents : List AgentM
  maxConcurrent : Nat
  projectExists : String → Bool
  launch : String → Except String Unit
  now : Nat

/-- `AgentManager.spawn` (effects abstracted as above): raise if a
session exists whose status is not stopped/error and whose pid is
alive; raise if the project is unknown; otherwise attempt the launch,
returning status `working`/`idle` on success and status `error` with
the error text when `_spawn_agent_process` raised. -/
def AgentManager.spawn (env : OrchEnv) (project : String)
    (task : Option String) : Except String (AgentStatus × Option String) :=
  match env.agents.find? (fun a => decide (a.project = project)) with
  | some existing =>
    if (existing.status ≠ .stopped ∧ existing.status ≠ .error) ∧
        existing.pidAlive then
      Except.error ("Agent for " ++ project ++ " is already running")
    else
      if env.projectExists project then
        match env.launch project with
        | Except.ok _ =>
          Except.ok (if task.isSome then .working else .idle, none)
        | Except.error e => Except.ok (.error, some e)
      else Except.error ("Project not found: " ++ project)
  | none =>
    if env.projectExists project then
      match env.launch project with
      | Except.ok _ =>
        Except.ok (if task.isSome then .working else .idle, none)
      | Except.error e => Except.ok (.error, some e)
    else Except.error ("Project not found: " ++ project)

/-- The `for task in pending_tasks` loop of
`Orchestrator._assign_tasks`: skip busy projects, stop at the
concurrency cap, claim via `claim_next(task.project)`, then spawn; a
raising spawn marks `task.id` failed with the error text and the loop
continues; a returning spawn (even with status `error`) adds the
project to the busy set and counts it as running. -/
def assignGo (env : OrchEnv) : List Task → List String → Nat → Store → Store
  | [], _, _, st => st
  | task :: rest, busy, running, st =>
    if busy.contains task.project then assignGo env rest busy running st
    else if env.maxConcurrent ≤ running then st
    else
      match TaskRepository.claim_next task.project env.now st with
      | (none, st') => assignGo env rest busy running st'
      | (some _, st') =>
        match AgentManager.spawn env task.project (some task.description) with
        | Except.error e =>
          let (_, st'') := TaskRepository.fail task.id e env.now st'
          assignGo env rest busy running st''
        | Except.ok _ =>
          assignGo env rest (busy ++ [task.project]) (running + 1) st'

/-- `Orchestrator._assign_tasks`: compute the running agents, stop at
the concurrency cap, fetch up to ten pending tasks in claim order, and
run the assignment loop. -/
def Orchestrator.assign_tasks (env : OrchEnv) (st : Store) : Store :=
  let running := env.agents.filter
    (fun a => decide (a.status = .working) || decide (a.status = .spawning))
  if env.maxConcurrent ≤ running.length then st
  else assignGo env (TaskRepository.list_pending st)
    (running.map (fun a => a.project)) running.length st

/-- `Orchestrator._on_agent_complete`, non-zero exit branch: fail the
task with `"Agent exited with code N"`. -/
def Orchestrator.exitError (exit_code : Nat) : String :=
  "Agent exited with code " ++ Nat.repr exit_code

/-- Repository-level operations on the task table. -/
inductive RepoOp where
  | create (id project description : String) (priority : TaskPriority)
      (now : Nat)
  | claim (assigned_to : String) (now : Nat)
  | complete (task_id : String) (result : Option String) (now : Nat)
  | fail (task_id error : String) (now : Nat)
  | cancel (task_id : String) (now : Nat)

/-- Apply one repository operation. -/
def RepoOp.apply (st : Store) : RepoOp → Store
  | .create id project description priority now =>
    (TaskRepository.create id project description priority now st).2
  | .claim a now => (TaskRepository.claim_next a now st).2
  | .complete tid res now => (TaskRepository.complete tid res now st).2
  | .fail tid err now => (TaskRepository.fail tid err now st).2
  | .cancel tid now => (TaskRepository.cancel tid now st).2

/-- Run a sequence of repository operations. -/
def runRepo (st : Store) : List RepoOp → Store
  | [] => st
  | op :: ops => runRepo (op.apply st) ops

/-- Task-store or orchestrator operations (an orchestrator assignment
tick carries its environment). -/
inductive Op where
  | repo (op : RepoOp)
  | assign (env : OrchEnv)

/-- Apply one operation. -/
def Op.apply (st : Store) : Op → Store
  | .repo op => op.apply st
  | .assign env => Orchestrator.assign_tasks env st

/-- Run a sequence of operations from a store. -/
def runOps (st : Store) : List Op → Store
  | [] => st
  | op :: ops => runOps (op.apply st) ops

/-- Well-formedness of one repository operation in a disciplined run:
ids of created tasks are fresh (the spec declares the short ids
collision-resistant within the active set) and `fail` is invoked only
on a pending or in-progress row, as the orchestrator does. -/
def repoOpOk (st : Store) : RepoOp → Bool
  | .create id _ _ _ _ => st.all (fun t => !decide (t.id = id))
  | .fail tid _ _ =>
    match taskBy st tid with
    | none => true
    | some t =>
      decide (t.status = .pending) || decide (t.status = .in_progress)
  | _ => true

/-- A disciplined run: every step is well-formed in the state where it
executes. -/
def goodRun (st : Store) : List RepoOp → Bool
  | [] => true
  | op :: ops => repoOpOk st op && goodRun (op.apply st) ops

/-! ## Audit log (src/ai_knowledge/server/audit.py)

The HMAC key is 32 random bytes generated at first use, and
HMAC-SHA-256 is a library primitive; the keyed, truncated digest
`hmac.new(key, data, sha256).hexdigest()[:32]` is therefore modelled
as an abstract function `H : String → String` over the formatted data
string.  Timestamps are the strings `datetime.now().isoformat()`
produces. -/

/-- The fields of `AuditEntry` that `_compute_hash` and
`verify_integrity` consult. -/
structure AuditEntryM where
  timestamp : String
  actor_type : String
  actor_id : Option String
  action : String
  prev_hash : Option String
  entry_hash : Option String
deriving DecidableEq, Repr

/-- Python string interpolation of an `Optional[str]` (`None` prints
as `"None"`). -/
def pyOptStr : Option String → String
  | none => "None"
  | some s => s

/-- The data string of `AuditLogger._compute_hash`:
`f"{ts}:{actor_type}:{actor_id}:{action}:{prev_hash}"`. -/
def auditDataString (e : AuditEntryM) : String :=
  e.timestamp ++ ":" ++ e.actor_type ++ ":" ++ pyOptStr e.actor_id ++ ":" ++
    e.action ++ ":" ++ pyOptStr e.prev_hash

/-- `AuditLogger._compute_hash` with the keyed truncated HMAC
abstracted as `H`. -/
def AuditLogger.compute_hash (H : String → String) (e : AuditEntryM) : String :=
  H (auditDataString e)

/-- The arguments of one `AuditLogger.log` call that enter the hash. -/
structure LogCall where
  timestamp : String
  actor_type : String
  actor_id : Option String
  action : String

/-- One `AuditLogger.log` call: build the entry with `prev_hash` from
the logger's `_last_hash`, compute and store `entry_hash`, and advance
`_last_hash`. -/
def AuditLogger.logOne (H : String → String) (last : Option String)
    (c : LogCall) : AuditEntryM × Option String :=
  let e0 : AuditEntryM :=
    { timestamp := c.timestamp, actor_type := c.actor_type,
      actor_id := c.actor_id, action := c.action, prev_hash := last,
      entry_hash := none }
  let h := AuditLogger.compute_hash H e0
  ({ e0 with entry_hash := some h }, some h)

/-- The rows appended by a sequence of `log` calls, threading
`_last_hash`. -/
def AuditLogger.runLog (H : String → String) (last : Option String) :
    List LogCall → List AuditEntryM
  | [] => []
  | c :: cs =>
    let p := AuditLogger.logOne H last c
    p.1 :: AuditLogger.runLog H p.2 cs

/-- The walk of `AuditLogger.verify_integrity` from a given previous
hash: check the link, recompute the entry hash, advance. -/
def AuditLogger.verifyFrom (H : String → String) (prev : Option String) :
    List AuditEntryM → Bool × Option String
  | [] => (true, none)
  | e :: rest =>
    if e.prev_hash ≠ prev then (false, some "chain broken")
    else if e.entry_hash ≠ some (AuditLogger.compute_hash H e) then
      (false, some "invalid hash")
    else AuditLogger.verifyFrom H e.entry_hash rest

/-- `AuditLogger.verify_integrity` over the stored entries in
insertion order. -/
def AuditLogger.verify_integrity (H : String → String)
    (entries : List AuditEntryM) : Bool × Option String :=
  AuditLogger.verifyFrom H none entries

/-- Modelled from the spec: the unbroken-chain property — each entry's
`prev_hash` is the previous entry's `entry_hash` (null for the first)
and each `entry_hash` is the keyed hash of the entry's timestamp,
actor, action, and `prev_hash`. -/
def ChainUnbroken (H : String → String) (prev : Option String) :
    List AuditEntryM → Prop
  | [] => True
  | e :: rest =>
    e.prev_hash = prev ∧
      e.entry_hash = some (AuditLogger.compute_hash H e) ∧
      ChainUnbroken H e.entry_hash rest

/-! ## Port registry (src/ai_knowledge/server/ports.py)

`is_port_available` probes the OS by binding a loopback socket; each
operation therefore takes the observation `avail : Nat → Bool` of that
probe as an environment argument. -/

/-- `PortAssignment` (ports.py). -/
structure PortAssignment where
  project : String
  service : String
  port : Nat
  in_use : Bool := false
deriving DecidableEq, Repr

/-- `PortRegistry` (ports.py); `assignments` is the JSON dict as an
association list in insertion order. -/
structure PortRegistry where
  rangeStart : Nat := 3000
  rangeEnd : Nat := 9000
  reserved : List Nat := [5432, 5433, 6379, 8420, 27017]
  assignments : List (String × PortAssignment) := []
deriving Repr

/-- `PortManager._assignment_key`. -/
def assignmentKey (project service : String) : String :=
  project ++ ":" ++ service

/-- Python dict update `d[k] = v`: replace in place, else append. -/
def upsert (k : String) (v : PortAssignment) :
    List (String × PortAssignment) → List (String × PortAssignment)
  | [] => [(k, v)]
  | (k', v') :: rest =>
    if k' = k then (k, v) :: rest else (k', v') :: upsert k v rest

/-- `PortManager._used_ports`: ports of all current assignments. -/
def usedPorts (reg : PortRegistry) : List Nat :=
  reg.assignments.map (fun kv => kv.2.port)

/-- `find_available_port(start, end, reserved)`: first port of
`range(start, end)` not reserved and observed available. -/
def find_available_port (start stop : Nat) (reserved : List Nat)
    (avail : Nat → Bool) : Option Nat :=
  (List.range' start (stop - start)).find?
    (fun p => !decide (p ∈ reserved) && avail p)

/-- `PortManager._save_assignment`. -/
def saveAssignment (reg : PortRegistry) (k project service : String)
    (port : Nat) : PortRegistry :=
  let pa : PortAssignment :=
    { project := project, service := service, port := port }
  { reg with assignments := upsert k pa reg.assignments }

/-- The range-scan fallback of `assign_port`: first port neither
reserved nor already assigned nor observed busy; `none` models the
`RuntimeError` when the scan finds nothing. -/
def PortManager.scanPath (avail : Nat → Bool) (project service : String)
    (reg : PortRegistry) (key : String) : Option Nat × PortRegistry :=
  match find_available_port reg.rangeStart reg.rangeEnd
      (reg.reserved ++ usedPorts reg) avail with
  | some port => (some port, saveAssignment reg key project service port)
  | none => (none, reg)

/-- The preferred-port test of `assign_port`: a truthy, non-reserved
preferred port that is observed available is saved without consulting
the registry; otherwise fall through to the range scan. -/
def PortManager.assignFresh (avail : Nat → Bool) (project service : String)
    (preferred : Option Nat) (reg : PortRegistry) (key : String) :
    Option Nat × PortRegistry :=
  match preferred with
  | some p =>
    if p ≠ 0 ∧ p ∉ reg.reserved then
      if avail p then (some p, saveAssignment reg key project service p)
      else PortManager.scanPath avail project service reg key
    else PortManager.scanPath avail project service reg key
  | none => PortManager.scanPath avail project service reg key

/-- `PortManager.assign_port`: reuse an existing assignment whose port
is observed free; else take the preferred port when usable; else scan
the range. -/
def PortManager.assign_port (avail : Nat → Bool) (project service : String)
    (preferred : Option Nat) (reg : PortRegistry) :
    Option Nat × PortRegistry :=
  match reg.assignments.lookup (assignmentKey project service) with
  | some existing =>
    if avail existing.port then (some existing.port, reg)
    else PortManager.assignFresh avail project service preferred reg
      (assignmentKey project service)
  | none =>
    PortManager.assignFresh avail project service preferred reg
      (assignmentKey project service)

/-- `PortManager.release_port`: drop the assignment for the key. -/
def PortManager.release_port (project service : String) (reg : PortRegistry) :
    PortRegistry :=
  let rest := reg.assignments.filter
    (fun kv => !decide (kv.1 = assignmentKey project service))
  { reg with assignments := rest }

/-- `PortManager.set_port`: refuse a reserved port; refuse an
unavailable port unless it is this key's own current assignment; else
save. -/
def PortManager.set_port (avail : Nat → Bool) (project service : String)
    (port : Nat) (reg : PortRegistry) : Bool × PortRegistry :=
  if reg.reserved.contains port then (false, reg)
  else
    let key := assignmentKey project service
    if !avail port then
      match reg.assignments.lookup key with
      | some existing =>
        if existing.port = port then
          (true, saveAssignment reg key project service port)
        else (false, reg)
      | none => (false, reg)
    else (true, saveAssignment reg key project service port)

/-- `PortManager.list_assignments`: the assignments (optionally
filtered by project) with `in_use` recomputed from the availability
probe. -/
def PortManager.list_assignments (avail : Nat → Bool)
    (project : Option String) (reg : PortRegistry) : List PortAssignment :=
  let base := reg.assignments.map (fun kv => kv.2)
  let filtered :=
    match project with
    | none => base
    | some p => base.filter (fun a => decide (a.project = p))
  filtered.map (fun a => { a with in_use := !avail a.port })

/-- Port operations restricted to the automatic path: `assign_port`
with no preferred port, and `release_port`.  Each carries its own
availability observation. -/
inductive PortOp where
  | autoAssign (avail : Nat → Bool) (project service : String)
  | release (project service : String)

/-- Apply one port operation. -/
def PortOp.apply (reg : PortRegistry) : PortOp → PortRegistry
  | .autoAssign avail project service =>
    (PortManager.assign_port avail project service none reg).2
  | .release project service => PortManager.release_port project service reg

/-- Run a sequence of port operations. -/
def runPorts (reg : PortRegistry) : List PortOp → PortRegistry
  | [] => reg
  | op :: ops => runPorts (op.apply reg) ops

/-! ## Auth manager (src/ai_knowledge/server/auth.py)

The token table is a list of rows; `secrets.token_hex(8)`,
`secrets.token_urlsafe(32)` and `hashlib.sha256` are abstracted as
explicit arguments. -/

/-- The columns of the `tokens` table that `has_any_tokens` and
`create_token` touch. -/
structure TokenRow where
  id : String
  name : String
  token_hash : String
  role : String
  revoked : Bool := false
deriving DecidableEq, Repr

/-- `AuthManager.has_any_tokens`:
`SELECT COUNT(*) FROM tokens WHERE NOT revoked` compared with 0. -/
def AuthManager.has_any_tokens (db : List TokenRow) : Bool :=
  0 < (db.filter (fun r => !r.revoked)).length

/-- `AuthManager.create_token` restricted to the admin-bootstrap call:
generate id and bearer string (supplied as arguments), store the hash
of the bearer, and return the plain token with the new row. -/
def AuthManager.create_token (hashFn : String → String)
    (token_id plain_token name role : String) (db : List TokenRow) :
    (String × TokenRow) × List TokenRow :=
  let row : TokenRow :=
    { id := token_id, name := name, token_hash := hashFn plain_token,
      role := role }
  ((plain_token, row), db ++ [row])

/-- `AuthManager.create_initial_admin_token`: return `None` when
`has_any_tokens`, else create an admin token named
"Initial Admin Token". -/
def AuthManager.create_initial_admin_token (hashFn : String → String)
    (token_id plain_token : String) (db : List TokenRow) :
    Option (String × TokenRow) × List TokenRow :=
  if AuthManager.has_any_tokens db then (none, db)
  else
    let r := AuthManager.create_token hashFn token_id plain_token
      "Initial Admin Token" "admin" db
    (some r.1, r.2)

/-! ## Proof-side notions -/

/-- `SubChunks m inp out`: `out` arises from `inp` by keeping
characters and replacing (possibly empty) chunks of `inp` by the
replacement text `m`.  Every single substitution pass of the scrubber
(`replaceAll` for one known secret, `reSub` for one pattern) relates
its input to its output this way. -/
inductive SubChunks (m : List Char) : List Char → List Char → Prop where
  | nil : SubChunks m [] []
  | keep (c : Char) {inp out : List Char} :
      SubChunks m inp out → SubChunks m (c :: inp) (c :: out)
  | subst (w : List Char) {inp out : List Char} :
      SubChunks m inp out → SubChunks m (w ++ inp) (m ++ out)

/-- Invariant behind claim C3 (amended): an in-progress row always has
a (non-null) assignee. -/
def InvAssigned (st : Store) : Prop :=
  ∀ t ∈ st, t.status = TaskStatus.in_progress → t.assigned_to ≠ none

/-- Invariant behind claim C4 (amended): ids are distinct,
`retry_count` never exceeds `max_retries`, and a claimable row still
has retry budget. -/
def InvRetry (st : Store) : Prop :=
  (st.map Task.id).Nodup ∧
    ∀ t ∈ st, t.retry_count ≤ t.max_retries ∧
      ((t.status = TaskStatus.pending ∨ t.status = TaskStatus.in_progress) →
        t.retry_count < t.max_retries)

/-! ## Concrete scenarios used by counterexamples and bug witnesses -/

/-- C2: a pending task whose `depends_on` names an uncompleted task. -/
def c2taskA : Task :=
  { id := "A", project := "p", description := "a", created_at := 0,
    depends_on := some ["B"] }

/-- C2: the uncompleted dependency, itself pending and younger. -/
def c2taskB : Task :=
  { id := "B", project := "p", description := "b", created_at := 1 }

/-- C5: a task configured with `max_retries = 2`. -/
def c5task : Task :=
  { id := "T", project := "demo", description := "d", created_at := 0,
    max_retries := 2 }

/-- C5: first claim by the orchestrator. -/
def c5s1 : Store := (TaskRepository.claim_next "demo" 1 [c5task]).2

/-- C5: first non-zero exit (code 7). -/
def c5s2 : Store :=
  (TaskRepository.fail "T" (Orchestrator.exitError 7) 2 c5s1).2

/-- C5: second claim. -/
def c5s3 : Store := (TaskRepository.claim_next "demo" 3 c5s2).2

/-- C5: second non-zero exit (code 9). -/
def c5s4 : Store :=
  (TaskRepository.fail "T" (Orchestrator.exitError 9) 4 c5s3).2

/-- C5: the task's status observed after each step. -/
def c5statuses : List (Option TaskStatus) :=
  [c5s1, c5s2, c5s3, c5s4].map (fun s => (taskBy s "T").map Task.status)

/-- C7: a tick environment in which the agent process cannot be
launched (`subprocess.Popen` raises "boom" inside
`_spawn_agent_process`). -/
def c7env : OrchEnv :=
  { agents := [], maxConcurrent := 3, projectExists := fun _ => true,
    launch := fun _ => Except.error "boom", now := 1 }

/-- C7: a tick environment in which `spawn` itself raises (unknown
project). -/
def c7envRaise : OrchEnv :=
  { agents := [], maxConcurrent := 3, projectExists := fun _ => false,
    launch := fun _ => Except.ok (), now := 1 }

/-- C7: one fresh pending task. -/
def c7store : Store :=
  [{ id := "t1", project := "p", description := "d", created_at := 0 }]

/-- C8: every port observed free. -/
def envFree : Nat → Bool := fun _ => true

/-- C8: every port observed bound. -/
def envBusy : Nat → Bool := fun _ => false

/-- C8: automatic assignment for project `a`, then an assignment for
project `b` with the same port passed as `preferred`. -/
def c8reg : PortRegistry :=
  (PortManager.assign_port envFree "b" "web" (some 3000)
    (PortManager.assign_port envFree "a" "web" none {}).2).2

/-- C9: a token table whose only row is revoked. -/
def c9db : List TokenRow :=
  [{ id := "t0", name := "old", token_hash := "h", role := "admin",
     revoked := true }]

/-! ## Lemmas: substitution passes and the chunk structure -/

/-- Reflexivity of the chunk relation: keeping every character. -/
theorem sub_chunks_refl (m : List Char) : ∀ l, SubChunks m l l
  | [] => .nil
  | c :: rest => .keep c (sub_chunks_refl m rest)

/-- One `re.sub` pass relates input to output by chunks. -/
theorem chunks_reSubF (r : Regex) (m : List Char) :
    ∀ (fuel : Nat) (rev rest : List Char),
      SubChunks m rest (reSubF r m fuel rev rest) := by
  intro fuel
  induction fuel with
  | zero => intro rev rest; exact sub_chunks_refl m rest
  | succ f ih =>
    intro rev rest
    cases hm : matchAt r rev rest with
    | none =>
      cases rest with
      | nil => simp only [reSubF, hm]; exact .nil
      | cons c rest' => simp only [reSubF, hm]; exact .keep c (ih _ _)
    | some n =>
      by_cases hn : n = 0
      · subst hn
        cases rest with
        | nil =>
          have h0 := SubChunks.subst [] (m := m) SubChunks.nil
          rw [List.append_nil] at h0
          simpa [reSubF, hm] using h0
        | cons c rest' =>
          simpa [reSubF, hm] using SubChunks.subst [] (.keep c (ih (c :: rev) rest'))
      · simp only [reSubF, hm, if_neg hn]
        have h1 := SubChunks.subst (rest.take n) (m := m)
          (ih ((rest.take n).reverse ++ rev) (rest.drop n))
        rw [List.take_append_drop] at h1
        exact h1

/-- The interleaving produced by Python `t.replace("", m)` is chunked. -/
theorem chunks_flat (m : List Char) (t : List Char) :
    SubChunks m t ((t.map (fun c => c :: m)).flatten) := by
  induction t with
  | nil => exact .nil
  | cons c rest ih =>
    simp only [List.map_cons, List.flatten_cons, List.cons_append]
    exact .keep c (SubChunks.subst [] ih)

/-- One `str.replace` pass relates input to output by chunks. -/
theorem chunks_replaceAllF (s m : List Char) :
    ∀ (fuel : Nat) (t : List Char), SubChunks m t (replaceAllF fuel t s m) := by
  intro fuel
  induction fuel with
  | zero => intro t; exact sub_chunks_refl m t
  | succ f ih =>
    intro t
    by_cases hs : s = []
    · simp only [replaceAllF, if_pos hs]
      exact SubChunks.subst [] (chunks_flat m t)
    · cases t with
      | nil => simp only [replaceAllF, if_neg hs]; exact .nil
      | cons c rest =>
        by_cases hp : s.isPrefixOf (c :: rest) = true
        · simp only [replaceAllF, if_neg hs, if_pos hp]
          have hpre : s <+: c :: rest := List.isPrefixOf_iff_prefix.mp hp
          obtain ⟨u, hu⟩ := hpre
          have hdrop : (c :: rest).drop s.length = u := by
            rw [← hu, List.drop_left]
          rw [hdrop]
          have h1 := SubChunks.subst s (m := m) (ih u)
          rw [hu] at h1
          exact h1
        · simp only [replaceAllF, if_neg hs, if_neg hp]
          exact .keep c (ih rest)

/-- A chunked pass cannot create a new marker-character-free prefix:
any such prefix of the output is a prefix of the input. -/
theorem sub_pfx {m inp out : List Char} (h : SubChunks m inp out)
    (hm : m ≠ []) :
    ∀ x : List Char, (∀ c ∈ x, c ∉ m) → x <+: out → x <+: inp := by
  induction h with
  | nil =>
    intro x _ hp
    rw [List.prefix_nil] at hp
    rw [hp]
  | keep c h' ih =>
    intro x hx hp
    cases x with
    | nil => exact List.nil_prefix
    | cons d x' =>
      obtain ⟨hd, hp'⟩ := List.cons_prefix_cons.mp hp
      subst hd
      exact List.cons_prefix_cons.mpr
        ⟨rfl, ih x' (fun e he => hx e (List.mem_cons_of_mem _ he)) hp'⟩
  | subst w h' ih =>
    intro x hx hp
    cases x with
    | nil => exact List.nil_prefix
    | cons d x' =>
      cases m with
      | nil => exact absurd rfl hm
      | cons e m' =>
        rw [List.cons_append] at hp
        obtain ⟨hd, _⟩ := List.cons_prefix_cons.mp hp
        subst hd
        exact absurd (List.mem_cons_self _ _) (hx d (List.mem_cons_self _ _))

/-- A marker-character-free occurrence inside `p ++ l` where it avoids
all characters of `p` lies inside `l`. -/
theorem inf_drop_out {x : List Char} (hx : x ≠ []) :
    ∀ (p l : List Char), (∀ c ∈ x, c ∉ p) → x <:+: p ++ l → x <:+: l := by
  intro p
  induction p with
  | nil => intro l _ h; simpa using h
  | cons c p' ih =>
    intro l hcs h
    rw [List.cons_append] at h
    rcases List.infix_cons_iff.mp h with hpre | hinf
    · cases x with
      | nil => exact absurd rfl hx
      | cons d x' =>
        obtain ⟨hd, _⟩ := List.cons_prefix_cons.mp hpre
        subst hd
        exact absurd (List.mem_cons_self _ _) (hcs d (List.mem_cons_self _ _))
    · exact ih l (fun e he hmem => hcs e he (List.mem_cons_of_mem _ hmem)) hinf

/-- An occurrence extends along a left context. -/
theorem inf_ext {x l : List Char} (w : List Char) (h : x <:+: l) :
    x <:+: w ++ l := by
  obtain ⟨u, v, huv⟩ := h
  exact ⟨w ++ u, v, by rw [← huv]; simp [List.append_assoc]⟩

/-- A chunked pass with a non-empty replacement cannot introduce an
occurrence of a non-empty string that shares no character with the
replacement. -/
theorem inf_of_chunks {m inp out : List Char} (h : SubChunks m inp out)
    (hm : m ≠ []) :
    ∀ x, x ≠ [] → (∀ c ∈ x, c ∉ m) → x <:+: out → x <:+: inp := by
  induction h with
  | nil =>
    intro x hx _ hinf
    rw [List.infix_nil] at hinf
    exact absurd hinf hx
  | keep c h' ih =>
    intro x hx hcs hinf
    rcases List.infix_cons_iff.mp hinf with hpre | hinf'
    · obtain ⟨u, hu⟩ := sub_pfx (SubChunks.keep c h') hm x hcs hpre
      exact ⟨[], u, by simp [hu]⟩
    · exact List.infix_cons (ih x hx hcs hinf')
  | subst w h' ih =>
    intro x hx hcs hinf
    exact inf_ext w (ih x hx hcs (inf_drop_out hx m _ hcs hinf))

/-- A marker-character-free prefix of a `str.replace` output is a
prefix of the input. -/
theorem rep_pfx {s m : List Char} (hm : m ≠ []) :
    ∀ (fuel : Nat) (t x : List Char), (∀ c ∈ x, c ∉ m) →
      x <+: replaceAllF fuel t s m → x <+: t := by
  intro fuel
  induction fuel with
  | zero => intro t x _ hp; simpa [replaceAllF] using hp
  | succ f ih =>
    intro t x hcs hp
    by_cases hs : s = []
    · simp only [replaceAllF] at hp
      rw [if_pos hs] at hp
      cases x with
      | nil => exact List.nil_prefix
      | cons d x' =>
        cases m with
        | nil => exact absurd rfl hm
        | cons e m' =>
          rw [List.cons_append] at hp
          obtain ⟨hd, _⟩ := List.cons_prefix_cons.mp hp
          subst hd
          exact absurd (List.mem_cons_self _ _)
            (hcs d (List.mem_cons_self _ _))
    · cases t with
      | nil =>
        rw [replaceAllF, if_neg hs] at hp
        exact hp
      | cons c rest =>
        by_cases hpw : s.isPrefixOf (c :: rest) = true
        · simp only [replaceAllF] at hp
          rw [if_neg hs, if_pos hpw] at hp
          cases x with
          | nil => exact List.nil_prefix
          | cons d x' =>
            cases m with
            | nil => exact absurd rfl hm
            | cons e m' =>
              rw [List.cons_append] at hp
              obtain ⟨hd, _⟩ := List.cons_prefix_cons.mp hp
              subst hd
              exact absurd (List.mem_cons_self _ _)
                (hcs d (List.mem_cons_self _ _))
        · simp only [replaceAllF] at hp
          rw [if_neg hs, if_neg hpw] at hp
          cases x with
          | nil => exact List.nil_prefix
          | cons d x' =>
            obtain ⟨hd, hp'⟩ := List.cons_prefix_cons.mp hp
            subst hd
            exact List.cons_prefix_cons.mpr
              ⟨rfl, ih rest x'
                (fun e he => hcs e (List.mem_cons_of_mem _ he)) hp'⟩

/-- After `t.replace(s, m)` with sufficient fuel, `s` no longer occurs
when it is non-empty and shares no character with `m`. -/
theorem rep_no_occ {s m : List Char} (hs : s ≠ []) (hm : m ≠ [])
    (hcs : ∀ c ∈ s, c ∉ m) :
    ∀ (fuel : Nat) (t : List Char), t.length < fuel →
      ¬ s <:+: replaceAllF fuel t s m := by
  intro fuel
  induction fuel with
  | zero => intro t hlen; exact absurd hlen (Nat.not_lt_zero _)
  | succ f ih =>
    intro t hlen hinf
    cases t with
    | nil =>
      simp only [replaceAllF] at hinf
      rw [if_neg hs] at hinf
      rw [List.infix_nil] at hinf
      exact hs hinf
    | cons c rest =>
      by_cases hpw : s.isPrefixOf (c :: rest) = true
      · simp only [replaceAllF] at hinf
        rw [if_neg hs, if_pos hpw] at hinf
        have h2 := inf_drop_out hs m _ hcs hinf
        refine ih _ ?_ h2
        have hs1 : 1 ≤ s.length := by
          cases s with
          | nil => exact absurd rfl hs
          | cons a s' => simp
        have hl : rest.length < f := Nat.lt_of_succ_lt_succ hlen
        rw [List.length_drop]
        simp only [List.length_cons]
        omega
      · simp only [replaceAllF] at hinf
        rw [if_neg hs, if_neg hpw] at hinf
        rcases List.infix_cons_iff.mp hinf with hpre | hinf'
        · cases s with
          | nil => exact hs rfl
          | cons d s1 =>
            obtain ⟨hd, hp'⟩ := List.cons_prefix_cons.mp hpre
            subst hd
            have hps1 : s1 <+: rest :=
              rep_pfx hm f rest s1
                (fun e he => hcs e (List.mem_cons_of_mem _ he)) hp'
            have : (d :: s1).isPrefixOf (d :: rest) = true :=
              List.isPrefixOf_iff_prefix.mpr
                (List.cons_prefix_cons.mpr ⟨rfl, hps1⟩)
            exact hpw this
        · exact ih rest (Nat.lt_of_succ_lt_succ hlen) hinf'

/-- `containsSub` decides the substring relation. -/
theorem containsSub_spec : ∀ t s : List Char,
    containsSub t s = true ↔ s <:+: t := by
  intro t
  induction t with
  | nil =>
    intro s
    rw [containsSub]
    simp [ List.isPrefixOf_iff_prefix, List.prefix_nil, List.infix_nil]
  | cons c t' ih =>
    intro s
    rw [containsSub]
    simp only [Bool.or_eq_true, List.isPrefixOf_iff_prefix, ih,
      List.infix_cons_iff]

/-- One known-secret pass relates input to output by chunks. -/
theorem chunks_step (m r sec : List Char) :
    SubChunks m r (scrubKnownStep m r sec) := by
  unfold scrubKnownStep
  by_cases hc : containsSub r sec = true
  · rw [if_pos hc]; exact chunks_replaceAllF sec m _ r
  · rw [if_neg hc]; exact sub_chunks_refl m r

/-- A known-secret pass for any secret keeps the output free of a
marker-disjoint `s` that the input was free of. -/
theorem step_pres {s m : List Char} (hm : m ≠ []) (hs : s ≠ [])
    (hcs : ∀ c ∈ s, c ∉ m) {r : List Char} (h : ¬ s <:+: r)
    (sec : List Char) : ¬ s <:+: scrubKnownStep m r sec := by
  intro hinf
  exact h (inf_of_chunks (chunks_step m r sec) hm s hs hcs hinf)

/-- The known-secret pass for `s` itself removes every occurrence. -/
theorem step_kills {s m : List Char} (hm : m ≠ []) (hs : s ≠ [])
    (hcs : ∀ c ∈ s, c ∉ m) (r : List Char) :
    ¬ s <:+: scrubKnownStep m r s := by
  unfold scrubKnownStep
  by_cases hc : containsSub r s = true
  · rw [if_pos hc]
    exact rep_no_occ hs hm hcs (r.length + 1) r (Nat.lt_succ_self _)
  · rw [if_neg hc]
    intro hinf
    exact hc ((containsSub_spec r s).mpr hinf)

/-- Freedom from `s` is preserved across the rest of the known-secret
fold. -/
theorem fold_known_pres {s m : List Char} (hm : m ≠ []) (hs : s ≠ [])
    (hcs : ∀ c ∈ s, c ∉ m) :
    ∀ (l : List (List Char)) (r : List Char), ¬ s <:+: r →
      ¬ s <:+: List.foldl (scrubKnownStep m) r l := by
  intro l
  induction l with
  | nil => intro r h; exact h
  | cons sec rest ih =>
    intro r h
    exact ih _ (step_pres hm hs hcs h sec)

/-- After the whole known-secret fold, a registered marker-disjoint
secret no longer occurs. -/
theorem fold_known {s m : List Char} (hm : m ≠ []) (hs : s ≠ [])
    (hcs : ∀ c ∈ s, c ∉ m) :
    ∀ (secrets : List (List Char)) (r : List Char), s ∈ secrets →
      ¬ s <:+: List.foldl (scrubKnownStep m) r secrets := by
  intro secrets
  induction secrets with
  | nil => intro r hmem; exact absurd hmem (List.not_mem_nil s)
  | cons sec rest ih =>
    intro r hmem
    rcases List.mem_cons.mp hmem with heq | hmem'
    · subst heq
      exact fold_known_pres hm hs hcs rest _ (step_kills hm hs hcs r)
    · exact ih _ hmem'

/-- Freedom from `s` is preserved across the pattern fold. -/
theorem fold_pats {s m : List Char} (hm : m ≠ []) (hs : s ≠ [])
    (hcs : ∀ c ∈ s, c ∉ m) :
    ∀ (pats : List Regex) (r : List Char), ¬ s <:+: r →
      ¬ s <:+: List.foldl (fun r p => reSub p m r) r pats := by
  intro pats
  induction pats with
  | nil => intro r h; exact h
  | cons p rest ih =>
    intro r h
    refine ih _ ?_
    intro hinf
    exact h (inf_of_chunks (chunks_reSubF p m _ [] r) hm s hs hcs hinf)

/-! ## Claim C1 -/

/-- C1 (counterexample): the claim fails as stated.  The secret value
`[REDACTED]` (10 characters, so accepted by `add_known_secret`) is a
registered known secret, yet `scrub` of the text `[REDACTED]` still
contains it as a substring: the exact-replacement stage rewrites the
occurrence into the marker, which is the secret itself, and no
credential pattern matches the marker. -/
theorem C1_counterexample :
    "[REDACTED]".data ∈
        (SecretScrubber.add_known_secret {} "[REDACTED]".data).knownSecrets ∧
      "[REDACTED]".data <:+:
        (SecretScrubber.add_known_secret {} "[REDACTED]".data).scrub
          "[REDACTED]".data := by
  constructor
  · decide
  · have h : (SecretScrubber.add_known_secret {} "[REDACTED]".data).scrub
        "[REDACTED]".data = "[REDACTED]".data := by decide
    rw [h]

/-- C1 (amended): for a secret `s` registered in the scrubber's
known-secret set, every scrubbed output — `SecretScrubber.scrub`, the
log-read `AgentManager.get_logs`, and the captured run output
`AgentManager._capture_output` — is free of `s` as a substring,
provided `s` shares no character with the replacement marker (the
counterexample shows the claim fails when `s` overlaps the marker
text). -/
theorem C1_scrub_removes_registered_secret (st : SecretScrubber)
    (s : List Char) (hmem : s ∈ st.knownSecrets) (hs : s ≠ [])
    (hrep : st.replacement ≠ [])
    (hcs : ∀ c ∈ s, c ∉ st.replacement) :
    (∀ text, ¬ s <:+: st.scrub text) ∧
      (∀ content lines, ¬ s <:+: AgentManager.get_logs st content lines) ∧
      ∀ content, ¬ s <:+: AgentManager.capture_output st content := by
  have hscrub : ∀ text, ¬ s <:+: st.scrub text := by
    intro text
    unfold SecretScrubber.scrub
    by_cases ht : text = []
    · rw [if_pos ht, ht]
      intro hinf
      rw [List.infix_nil] at hinf
      exact hs hinf
    · rw [if_neg ht]
      exact fold_pats hrep hs hcs st.compiledPatterns _
        (fold_known hrep hs hcs st.knownSecrets text hmem)
  exact ⟨hscrub, fun content lines => hscrub _, fun content => hscrub _⟩

/-- C1 (witness): a concrete registered secret disjoint from the
marker is eliminated from a concrete text. -/
theorem C1_scrub_removes_registered_secret_witness :
    ("qzvwqzvwqzvw".data ∈
        (SecretScrubber.add_known_secret {} "qzvwqzvwqzvw".data).knownSecrets ∧
      "qzvwqzvwqzvw".data ≠ [] ∧
      (SecretScrubber.add_known_secret {} "qzvwqzvwqzvw".data).replacement ≠ [] ∧
      ∀ c ∈ "qzvwqzvwqzvw".data,
        c ∉ (SecretScrubber.add_known_secret {} "qzvwqzvwqzvw".data).replacement) ∧
      ¬ "qzvwqzvwqzvw".data <:+:
        (SecretScrubber.add_known_secret {} "qzvwqzvwqzvw".data).scrub
          "my qzvwqzvwqzvw here".data :=
  ⟨⟨by decide, by decide, by decide, by decide⟩,
    (C1_scrub_removes_registered_secret _ _ (by decide) (by decide)
      (by decide) (by decide)).1 "my qzvwqzvwqzvw here".data⟩

/-! ## Claim C10 -/

/-- C10: a candidate secret shorter than the scrubber's minimum length
(8 for the scrubber as constructed) is not added to the known-secret
set, so scrubbing is unchanged by the registration attempt; only the
fixed credential patterns can redact such a value. -/
theorem C10_short_secret_not_registered (st : SecretScrubber)
    (s : List Char) (h : s.length < st.minSecretLength) :
    SecretScrubber.add_known_secret st s = st ∧
      ∀ text, (SecretScrubber.add_known_secret st s).scrub text =
        st.scrub text := by
  have hadd : SecretScrubber.add_known_secret st s = st := by
    unfold SecretScrubber.add_known_secret
    rw [if_neg]
    intro hc
    exact absurd hc.2 (Nat.not_le.mpr h)
  exact ⟨hadd, fun text => by rw [hadd]⟩

/-- C10 (witness): the 5-character value "short" is rejected and a
text containing it scrubs identically before and after the
registration attempt. -/
theorem C10_short_secret_not_registered_witness :
    ("short".data.length < ({} : SecretScrubber).minSecretLength) ∧
      SecretScrubber.add_known_secret {} "short".data = {} :=
  ⟨by decide,
    (C10_short_secret_not_registered {} "short".data (by decide)).1⟩

/-! ## Lemmas: the task table -/

/-- A found row is a member bearing the requested id. -/
theorem taskBy_eq_some {st : Store} {tid : String} {t : Task}
    (h : taskBy st tid = some t) : t ∈ st ∧ t.id = tid := by
  unfold taskBy at h
  have h2 := List.find?_some h
  simp only [decide_eq_true_eq] at h2
  exact ⟨List.mem_of_find?_eq_some h, h2⟩

/-- Row updates that preserve ids commute with row lookup. -/
theorem taskBy_map (upd : Task → Task) (hid : ∀ t, (upd t).id = t.id)
    (st : Store) (tid : String) :
    taskBy (st.map upd) tid = (taskBy st tid).map upd := by
  induction st with
  | nil => rfl
  | cons t rest ih =>
    unfold taskBy at ih ⊢
    simp only [List.map_cons, List.find?]
    rw [hid t]
    by_cases hc : t.id = tid
    · simp [hc]
    · rw [decide_eq_false hc]
      exact ih

/-- `claimUpd` preserves ids. -/
theorem claimUpd_id (a : String) (now : Nat) (bid : String) :
    ∀ t, (claimUpd a now bid t).id = t.id := by
  intro t
  unfold claimUpd
  by_cases hx : t.id = bid <;> simp [hx]

/-- `failUpd` preserves ids. -/
theorem failUpd_id (tid err : String) (now newRetry : Nat)
    (newStatus : TaskStatus) :
    ∀ t, (failUpd tid err now newRetry newStatus t).id = t.id := by
  intro t
  unfold failUpd
  by_cases hx : t.id = tid <;> simp [hx]

/-- What one selection step can return. -/
theorem selStep_cases {acc : Option Task} {t b : Task}
    (h : selStep acc t = some b) :
    (b = t ∧ t.status = TaskStatus.pending) ∨ acc = some b := by
  unfold selStep at h
  split at h
  case isTrue hs =>
    split at h
    · exact Or.inl ⟨(Option.some.inj h).symm, hs⟩
    · split at h
      · exact Or.inl ⟨(Option.some.inj h).symm, hs⟩
      · exact Or.inr h
  case isFalse hs => exact Or.inr h

/-- What the selection fold can return. -/
theorem selectNext_go : ∀ (l : List Task) (acc : Option Task) (b : Task),
    List.foldl selStep acc l = some b →
    (b ∈ l ∧ b.status = TaskStatus.pending) ∨ acc = some b := by
  intro l
  induction l with
  | nil => intro acc b h; exact Or.inr h
  | cons t rest ih =>
    intro acc b h
    rcases ih (selStep acc t) b h with ⟨hm, hp⟩ | hstep
    · exact Or.inl ⟨List.mem_cons_of_mem _ hm, hp⟩
    · rcases selStep_cases hstep with ⟨rfl, hp⟩ | hacc
      · exact Or.inl ⟨List.mem_cons_self _ _, hp⟩
      · exact Or.inr hacc

/-- The selected row is a pending member of the table. -/
theorem selectNext_mem {st : Store} {b : Task}
    (h : selectNext st = some b) : b ∈ st ∧ b.status = TaskStatus.pending := by
  rcases selectNext_go st none b h with hok | hbad
  · exact hok
  · exact absurd hbad (by simp)

/-- Membership preservation of the generic invariant through a row
update. -/
theorem invAssigned_map {st : Store} (upd : Task → Task)
    (_h : InvAssigned st)
    (hupd : ∀ t ∈ st, (upd t).status = TaskStatus.in_progress →
      (upd t).assigned_to ≠ none) :
    InvAssigned (st.map upd) := by
  intro t' ht' hstat
  obtain ⟨t, ht, rfl⟩ := List.mem_map.mp ht'
  exact hupd t ht hstat

/-- `create` preserves the in-progress-has-assignee invariant. -/
theorem invAssigned_create {st : Store} (h : InvAssigned st)
    (id project description : String) (priority : TaskPriority) (now : Nat) :
    InvAssigned (TaskRepository.create id project description priority now st).2 := by
  intro t ht hstat
  rcases List.mem_append.mp ht with hmem | hmem
  · exact h t hmem hstat
  · rw [List.mem_singleton.mp hmem] at hstat
    simp at hstat

/-- `claim_next` preserves the in-progress-has-assignee invariant. -/
theorem invAssigned_claim {st : Store} (h : InvAssigned st)
    (a : String) (now : Nat) :
    InvAssigned (TaskRepository.claim_next a now st).2 := by
  unfold TaskRepository.claim_next
  cases hsel : selectNext st with
  | none => exact h
  | some b =>
    apply invAssigned_map _ h
    intro t ht
    by_cases hid : t.id = b.id
    · simp [claimUpd, hid]
    · simp only [claimUpd, if_neg hid]
      exact h t ht

/-- `complete` preserves the in-progress-has-assignee invariant. -/
theorem invAssigned_complete {st : Store} (h : InvAssigned st)
    (tid : String) (res : Option String) (now : Nat) :
    InvAssigned (TaskRepository.complete tid res now st).2 := by
  unfold TaskRepository.complete
  cases hf : taskBy st tid with
  | none => exact h
  | some t0 =>
    apply invAssigned_map _ h
    intro t ht
    by_cases hid : t.id = tid
    · simp [hid]
    · simp only [if_neg hid]
      exact h t ht

/-- `fail` preserves the in-progress-has-assignee invariant (the row
leaves `in_progress`). -/
theorem invAssigned_fail {st : Store} (h : InvAssigned st)
    (tid err : String) (now : Nat) :
    InvAssigned (TaskRepository.fail tid err now st).2 := by
  unfold TaskRepository.fail
  cases hf : taskBy st tid with
  | none => exact h
  | some task =>
    apply invAssigned_map _ h
    intro t ht
    by_cases hid : t.id = tid
    · by_cases hr : task.max_retries ≤ task.retry_count + 1 <;>
        simp [failUpd, hid, hr]
    · simp only [failUpd, if_neg hid]
      exact h t ht

/-- `cancel` preserves the in-progress-has-assignee invariant. -/
theorem invAssigned_cancel {st : Store} (h : InvAssigned st)
    (tid : String) (now : Nat) :
    InvAssigned (TaskRepository.cancel tid now st).2 := by
  unfold TaskRepository.cancel
  cases hf : st.find? (fun t => decide (t.id = tid) &&
      (decide (t.status = TaskStatus.pending) ||
        decide (t.status = TaskStatus.blocked))) with
  | none => exact h
  | some t0 =>
    apply invAssigned_map _ h
    intro t ht
    by_cases hid : t.id = tid ∧
        (t.status = TaskStatus.pending ∨ t.status = TaskStatus.blocked)
    · simp [hid]
    · simp only [if_neg hid]
      exact h t ht

/-- The assignment loop preserves the in-progress-has-assignee
invariant. -/
theorem invAssigned_assignGo (env : OrchEnv) :
    ∀ (tasks : List Task) (busy : List String) (running : Nat) (st : Store),
      InvAssigned st → InvAssigned (assignGo env tasks busy running st) := by
  intro tasks
  induction tasks with
  | nil => intro busy running st h; exact h
  | cons task rest ih =>
    intro busy running st h
    unfold assignGo
    by_cases hb : busy.contains task.project = true
    · rw [if_pos hb]; exact ih busy running st h
    · rw [if_neg hb]
      by_cases hcap : env.maxConcurrent ≤ running
      · rw [if_pos hcap]; exact h
      · rw [if_neg hcap]
        have hclaim := invAssigned_claim h task.project env.now
        cases hc : TaskRepository.claim_next task.project env.now st with
        | mk copt st' =>
          rw [hc] at hclaim
          cases copt with
          | none => exact ih busy running st' hclaim
          | some claimed =>
            cases AgentManager.spawn env task.project (some task.description) with
            | error e =>
              have hfail := invAssigned_fail hclaim task.id e env.now
              exact ih busy running _ hfail
            | ok stt => exact ih (busy ++ [task.project]) (running + 1) st' hclaim

/-- A whole orchestrator tick preserves the in-progress-has-assignee
invariant. -/
theorem invAssigned_assign (env : OrchEnv) {st : Store}
    (h : InvAssigned st) :
    InvAssigned (Orchestrator.assign_tasks env st) := by
  unfold Orchestrator.assign_tasks
  by_cases hcap : env.maxConcurrent ≤ (env.agents.filter
      (fun a => decide (a.status = AgentStatus.working) ||
        decide (a.status = AgentStatus.spawning))).length
  · rw [if_pos hcap]; exact h
  · rw [if_neg hcap]; exact invAssigned_assignGo env _ _ _ st h

/-- Each operation preserves the in-progress-has-assignee invariant. -/
theorem invAssigned_op {st : Store} (h : InvAssigned st) (op : Op) :
    InvAssigned (Op.apply st op) := by
  cases op with
  | repo rop =>
    cases rop with
    | create id project description priority now =>
      exact invAssigned_create h id project description priority now
    | claim a now => exact invAssigned_claim h a now
    | complete tid res now => exact invAssigned_complete h tid res now
    | fail tid err now => exact invAssigned_fail h tid err now
    | cancel tid now => exact invAssigned_cancel h tid now
  | assign env => exact invAssigned_assign env h

/-- Runs preserve the in-progress-has-assignee invariant. -/
theorem invAssigned_runOps : ∀ (ops : List Op) (st : Store),
    InvAssigned st → InvAssigned (runOps st ops) := by
  intro ops
  induction ops with
  | nil => intro st h; exact h
  | cons op rest ih => intro st h; exact ih _ (invAssigned_op h op)

/-- Id-preserving row updates leave the id column unchanged. -/
theorem ids_map (upd : Task → Task) (hid : ∀ t, (upd t).id = t.id)
    (st : Store) : (st.map upd).map Task.id = st.map Task.id := by
  rw [List.map_map]
  exact List.map_congr_left (fun t _ => hid t)

/-- With distinct ids, two rows bearing the same id are the same row. -/
theorem uniq_row {st : Store} (hnd : (st.map Task.id).Nodup) {t t' : Task}
    (ht : t ∈ st) (ht' : t' ∈ st) (hid : t.id = t'.id) : t = t' :=
  List.inj_on_of_nodup_map hnd ht ht' hid

/-- `create` with a fresh id preserves the retry invariant. -/
theorem invRetry_create {st : Store} (h : InvRetry st)
    (id project description : String) (priority : TaskPriority) (now : Nat)
    (hfresh : st.all (fun t => !decide (t.id = id)) = true) :
    InvRetry (TaskRepository.create id project description priority now st).2 := by
  obtain ⟨hnd, hrows⟩ := h
  simp only [TaskRepository.create]
  constructor
  · rw [List.map_append]
    rw [List.nodup_append]
    refine ⟨hnd, by simp, ?_⟩
    intro x hx hx'
    simp only [List.map_cons, List.map_nil, List.mem_singleton] at hx'
    obtain ⟨t, ht, rfl⟩ := List.mem_map.mp hx
    have := List.all_eq_true.mp hfresh t ht
    simp only [Bool.not_eq_true', decide_eq_false_iff_not] at this
    exact this hx'
  · intro t ht
    rcases List.mem_append.mp ht with hmem | hmem
    · exact hrows t hmem
    · rw [List.mem_singleton.mp hmem]
      exact ⟨Nat.zero_le _, fun _ => Nat.zero_lt_succ _⟩

/-- `claim_next` preserves the retry invariant. -/
theorem invRetry_claim {st : Store} (h : InvRetry st) (a : String)
    (now : Nat) : InvRetry (TaskRepository.claim_next a now st).2 := by
  obtain ⟨hnd, hrows⟩ := h
  unfold TaskRepository.claim_next
  cases hsel : selectNext st with
  | none => exact ⟨hnd, hrows⟩
  | some b =>
    obtain ⟨hbmem, hbpend⟩ := selectNext_mem hsel
    refine ⟨?_, ?_⟩
    · rw [ids_map _ (claimUpd_id a now b.id)]
      exact hnd
    · intro t' ht'
      obtain ⟨t, ht, rfl⟩ := List.mem_map.mp ht'
      by_cases hid : t.id = b.id
      · have heq : t = b := uniq_row hnd ht hbmem hid
        subst heq
        have hb := hrows t ht
        simp only [claimUpd, if_pos hid]
        exact ⟨hb.1, fun _ => hb.2 (Or.inl hbpend)⟩
      · simp only [claimUpd, if_neg hid]
        exact hrows t ht

/-- `complete` preserves the retry invariant. -/
theorem invRetry_complete {st : Store} (h : InvRetry st) (tid : String)
    (res : Option String) (now : Nat) :
    InvRetry (TaskRepository.complete tid res now st).2 := by
  obtain ⟨hnd, hrows⟩ := h
  unfold TaskRepository.complete
  cases hf : taskBy st tid with
  | none => exact ⟨hnd, hrows⟩
  | some t0 =>
    refine ⟨?_, ?_⟩
    · rw [ids_map _ (fun t => by by_cases hx : t.id = tid <;> simp [hx])]
      exact hnd
    · intro t' ht'
      obtain ⟨t, ht, rfl⟩ := List.mem_map.mp ht'
      by_cases hid : t.id = tid
      · rw [if_pos hid]
        exact ⟨(hrows t ht).1, fun hc => absurd hc (by simp)⟩
      · rw [if_neg hid]
        exact hrows t ht

/-- `cancel` preserves the retry invariant. -/
theorem invRetry_cancel {st : Store} (h : InvRetry st) (tid : String)
    (now : Nat) : InvRetry (TaskRepository.cancel tid now st).2 := by
  obtain ⟨hnd, hrows⟩ := h
  unfold TaskRepository.cancel
  cases hf : st.find? (fun t => decide (t.id = tid) &&
      (decide (t.status = TaskStatus.pending) ||
        decide (t.status = TaskStatus.blocked))) with
  | none => exact ⟨hnd, hrows⟩
  | some t0 =>
    refine ⟨?_, ?_⟩
    · rw [ids_map _ (fun t => by
        by_cases hx : t.id = tid ∧
          (t.status = TaskStatus.pending ∨ t.status = TaskStatus.blocked) <;>
          simp [hx])]
      exact hnd
    · intro t' ht'
      obtain ⟨t, ht, rfl⟩ := List.mem_map.mp ht'
      by_cases hid : t.id = tid ∧
          (t.status = TaskStatus.pending ∨ t.status = TaskStatus.blocked)
      · rw [if_pos hid]
        exact ⟨(hrows t ht).1, fun hc => absurd hc (by simp)⟩
      · rw [if_neg hid]
        exact hrows t ht

/-- `fail`, invoked on a pending or in-progress row, preserves the
retry invariant. -/
theorem invRetry_fail {st : Store} (h : InvRetry st) (tid err : String)
    (now : Nat)
    (hdisc : ∀ t, taskBy st tid = some t →
      t.status = TaskStatus.pending ∨ t.status = TaskStatus.in_progress) :
    InvRetry (TaskRepository.fail tid err now st).2 := by
  obtain ⟨hnd, hrows⟩ := h
  unfold TaskRepository.fail
  cases hf : taskBy st tid with
  | none => exact ⟨hnd, hrows⟩
  | some task =>
    obtain ⟨htm, htid⟩ := taskBy_eq_some hf
    have hlt : task.retry_count < task.max_retries :=
      (hrows task htm).2 (hdisc task hf)
    refine ⟨?_, ?_⟩
    · rw [ids_map _ (failUpd_id _ _ _ _ _)]
      exact hnd
    · intro t' ht'
      obtain ⟨t, ht, rfl⟩ := List.mem_map.mp ht'
      by_cases hid : t.id = tid
      · have heq : t = task := uniq_row hnd ht htm (by rw [hid, htid])
        subst heq
        by_cases hmax : t.max_retries ≤ t.retry_count + 1
        · simp only [failUpd, if_pos hid, if_pos hmax]
          exact ⟨Nat.succ_le_of_lt hlt, fun hc => absurd hc (by simp)⟩
        · simp only [failUpd, if_pos hid, if_neg hmax]
          exact ⟨Nat.succ_le_of_lt hlt, fun _ => Nat.lt_of_not_le hmax⟩
      · simp only [failUpd, if_neg hid]
        exact hrows t ht

/-- Disciplined runs preserve the retry invariant. -/
theorem invRetry_run : ∀ (ops : List RepoOp) (st : Store), InvRetry st →
    goodRun st ops = true → InvRetry (runRepo st ops) := by
  intro ops
  induction ops with
  | nil => intro st h _; exact h
  | cons op rest ih =>
    intro st h hg
    unfold goodRun at hg
    rw [Bool.and_eq_true] at hg
    obtain ⟨hok, hrest⟩ := hg
    refine ih _ ?_ hrest
    cases op with
    | create id project description priority now =>
      exact invRetry_create h id project description priority now hok
    | claim a now => exact invRetry_claim h a now
    | complete tid res now => exact invRetry_complete h tid res now
    | cancel tid now => exact invRetry_cancel h tid now
    | fail tid err now =>
      refine invRetry_fail h tid err now ?_
      intro t hft
      simp only [repoOpOk, hft, Bool.or_eq_true, decide_eq_true_eq] at hok
      exact hok

/-! ## Claim C2 -/

/-- C2: `claim_next` performs no dependency filtering.  In a store
whose oldest pending task `A` lists the uncompleted task `B` in
`depends_on`, `claim_next` claims `A` anyway — the claim (and spec)
says `A` is ineligible until `B` is completed.  (The feature is
unimplemented: the `tasks` table has no `depends_on` column,
`TaskRepository.create` accepts no `depends_on`, yet
`app.py /tasks/chain` passes one.) -/
theorem C2_claim_next_ignores_dependencies :
    ((TaskRepository.claim_next "p" 2 [c2taskA, c2taskB]).1).map
        (fun t => (t.id, t.status, t.depends_on)) =
      some ("A", TaskStatus.in_progress, some ["B"]) ∧
      (taskBy [c2taskA, c2taskB] "B").map Task.status =
        some TaskStatus.pending := by
  decide

/-! ## Claim C3 -/

/-- C3 (counterexample): the claim fails as stated.  After creating a
task for project `a` and calling `claim_next` with argument `b`, the
task is in progress with `assigned_to = "b"` though its project is
`"a"`: `claim_next` does not filter by project. -/
theorem C3_counterexample :
    ∃ t ∈ runOps []
        [Op.repo (RepoOp.create "t1" "a" "d" TaskPriority.normal 0),
         Op.repo (RepoOp.claim "b" 1)],
      t.status = TaskStatus.in_progress ∧ t.assigned_to ≠ some t.project := by
  decide

/-- C3 (amended): after any sequence of task-store and orchestrator
operations from the empty store, every in-progress task has a non-null
`assigned_to`, namely the argument of the `claim_next` call that
claimed it; it need not equal the task's project. -/
theorem C3_in_progress_has_assignee :
    (∀ ops : List Op, ∀ t ∈ runOps [] ops,
      t.status = TaskStatus.in_progress → t.assigned_to ≠ none) ∧
      ∀ (st : Store) (a : String) (now : Nat) (t : Task),
        (TaskRepository.claim_next a now st).1 = some t →
        t.assigned_to = some a ∧ t.status = TaskStatus.in_progress := by
  constructor
  · intro ops
    exact invAssigned_runOps ops []
      (fun t ht => absurd ht (List.not_mem_nil t))
  · intro st a now t h
    unfold TaskRepository.claim_next at h
    cases hsel : selectNext st with
    | none => rw [hsel] at h; exact absurd h (by simp)
    | some b =>
      rw [hsel] at h
      replace h : taskBy (st.map (claimUpd a now b.id)) b.id = some t := h
      rw [taskBy_map (claimUpd a now b.id) (claimUpd_id a now b.id)] at h
      cases hfind : taskBy st b.id with
      | none => rw [hfind] at h; exact absurd h (by simp)
      | some t0 =>
        rw [hfind] at h
        obtain ⟨_, ht0id⟩ := taskBy_eq_some hfind
        have heq : claimUpd a now b.id t0 = t := Option.some.inj h
        rw [← heq]
        simp [claimUpd, ht0id]

/-! ## Claim C4 -/

/-- C4 (counterexample): the claim fails as stated.  `fail` does not
guard on the row's status, so four `fail` calls on one freshly created
task (default `max_retries = 3`) drive `retry_count` to 4, exceeding
`max_retries`. -/
theorem C4_counterexample :
    ∃ t ∈ runRepo []
        [RepoOp.create "t" "p" "d" TaskPriority.normal 0,
         RepoOp.fail "t" "e1" 1, RepoOp.fail "t" "e2" 2,
         RepoOp.fail "t" "e3" 3, RepoOp.fail "t" "e4" 4],
      t.max_retries < t.retry_count := by
  decide

/-- C4 (amended): in runs where ids are fresh and `fail` is invoked
only on pending or in-progress rows (as the orchestrator does),
`retry_count` never exceeds `max_retries`; each `fail` call increments
the row's `retry_count` by exactly one; and once `retry_count` has
reached `max_retries`, any further `fail` leaves the status `failed`. -/
theorem C4_retry_bounded_in_disciplined_runs :
    (∀ ops : List RepoOp, goodRun [] ops = true →
      ∀ t ∈ runRepo [] ops, t.retry_count ≤ t.max_retries) ∧
      (∀ (st : Store) (tid err : String) (now : Nat) (t : Task),
        taskBy st tid = some t →
        ((TaskRepository.fail tid err now st).1).map Task.retry_count =
          some (t.retry_count + 1)) ∧
      ∀ (st : Store) (tid err : String) (now : Nat) (t : Task),
        taskBy st tid = some t → t.max_retries ≤ t.retry_count →
        ((TaskRepository.fail tid err now st).1).map Task.status =
          some TaskStatus.failed := by
  refine ⟨?_, ?_, ?_⟩
  · intro ops hg t ht
    have hinv := invRetry_run ops []
      ⟨List.nodup_nil, fun t ht => absurd ht (List.not_mem_nil t)⟩ hg
    exact (hinv.2 t ht).1
  · intro st tid err now t hft
    obtain ⟨_, htid⟩ := taskBy_eq_some hft
    unfold TaskRepository.fail
    rw [hft]
    show (taskBy (st.map (failUpd tid err now (t.retry_count + 1)
        (if t.max_retries ≤ t.retry_count + 1 then TaskStatus.failed
          else TaskStatus.pending))) tid).map Task.retry_count =
      some (t.retry_count + 1)
    rw [taskBy_map _ (failUpd_id _ _ _ _ _), hft]
    simp [failUpd, htid]
  · intro st tid err now t hft hmax
    obtain ⟨_, htid⟩ := taskBy_eq_some hft
    have hm2 : t.max_retries ≤ t.retry_count + 1 := hmax.trans (Nat.le_succ _)
    unfold TaskRepository.fail
    rw [hft]
    show (taskBy (st.map (failUpd tid err now (t.retry_count + 1)
        (if t.max_retries ≤ t.retry_count + 1 then TaskStatus.failed
          else TaskStatus.pending))) tid).map Task.status =
      some TaskStatus.failed
    rw [taskBy_map _ (failUpd_id _ _ _ _ _), hft]
    simp [failUpd, htid, hm2]

/-! ## Claim C5 -/

/-- C5 (counterexample): the claim fails as stated.  With
`max_retries = 2`, the code fails the task already at the second
non-zero exit (`retry_count + 1 ≥ max_retries` holds at 2 ≥ 2), so the
observed sequence is `in_progress, pending, in_progress, failed` — not
the claimed six-entry sequence — and no third claim is possible. -/
theorem C5_counterexample :
    c5statuses = [some TaskStatus.in_progress, some TaskStatus.pending,
        some TaskStatus.in_progress, some TaskStatus.failed] ∧
      c5statuses ≠ [some TaskStatus.in_progress, some TaskStatus.pending,
        some TaskStatus.in_progress, some TaskStatus.pending,
        some TaskStatus.in_progress, some TaskStatus.failed] ∧
      (TaskRepository.claim_next "demo" 5 c5s4).1 = none := by
  decide

/-- C5 (amended): for a task with `max_retries = 2` whose agent child
exits non-zero each run, the observed statuses are
`in_progress → pending → in_progress → failed` (the child runs only
twice), `retry_count` ends at 2, and the final error text contains the
last non-zero exit code (9 here, recorded as
"Agent exited with code 9"). -/
theorem C5_two_attempts_then_failed :
    c5statuses = [some TaskStatus.in_progress, some TaskStatus.pending,
        some TaskStatus.in_progress, some TaskStatus.failed] ∧
      (taskBy c5s4 "T").map Task.retry_count = some 2 ∧
      (taskBy c5s4 "T").map Task.error =
        some (some (Orchestrator.exitError 9)) ∧
      containsSub (Orchestrator.exitError 9).data (Nat.repr 9).data = true := by
  decide

/-! ## Claim C7 -/

/-! ## Lemmas: audit chain -/

/-- Entries produced by a run of `log` calls verify from the hash the
run started with. -/
theorem verifyFrom_runLog (H : String → String) :
    ∀ (calls : List LogCall) (last : Option String),
      AuditLogger.verifyFrom H last (AuditLogger.runLog H last calls) =
        (true, none) := by
  intro calls
  induction calls with
  | nil => intro last; rfl
  | cons c cs ih =>
    intro last
    simp only [AuditLogger.runLog, AuditLogger.logOne, AuditLogger.verifyFrom]
    rw [if_neg (fun hne => hne rfl), if_neg (fun hne => hne rfl)]
    exact ih _

/-- `verify_integrity`'s walk succeeds exactly on unbroken chains. -/
theorem verifyFrom_ok_iff (H : String → String) :
    ∀ (entries : List AuditEntryM) (prev : Option String),
      AuditLogger.verifyFrom H prev entries = (true, none) ↔
        ChainUnbroken H prev entries := by
  intro entries
  induction entries with
  | nil => intro prev; simp [AuditLogger.verifyFrom, ChainUnbroken]
  | cons e rest ih =>
    intro prev
    by_cases h1 : e.prev_hash = prev
    · by_cases h2 : e.entry_hash = some (AuditLogger.compute_hash H e)
      · simp [AuditLogger.verifyFrom, ChainUnbroken, h1, h2, ih]
      · simp [AuditLogger.verifyFrom, ChainUnbroken, h1, h2]
    · simp [AuditLogger.verifyFrom, ChainUnbroken, h1]

/-! ## Claim C6 -/

/-- C6: every run of `log` calls produces entries whose hashes chain
from the null first link, and `verify_integrity` returns success
(`(True, None)`) on a list of stored entries exactly when the chain is
unbroken: each entry's `prev_hash` is the previous `entry_hash` (null
first) and each `entry_hash` is the keyed truncated HMAC over
timestamp, actor, action and `prev_hash`. -/
theorem C6_audit_chain (H : String → String) :
    (∀ calls : List LogCall,
      AuditLogger.verify_integrity H (AuditLogger.runLog H none calls) =
        (true, none)) ∧
      ∀ entries : List AuditEntryM,
        AuditLogger.verify_integrity H entries = (true, none) ↔
          ChainUnbroken H none entries :=
  ⟨fun calls => verifyFrom_runLog H calls none,
    fun entries => verifyFrom_ok_iff H entries none⟩

/-! ## Lemmas: port registry -/

/-- Ports appearing after an upsert come from the new assignment or
were already assigned. -/
theorem upsert_port_mem (k : String) (v : PortAssignment) :
    ∀ (l : List (String × PortAssignment)) (x : Nat),
      x ∈ (upsert k v l).map (fun kv => kv.2.port) →
      x = v.port ∨ x ∈ l.map (fun kv => kv.2.port) := by
  intro l
  induction l with
  | nil =>
    intro x hx
    simp only [upsert, List.map_cons, List.map_nil, List.mem_singleton] at hx
    exact Or.inl hx
  | cons kv rest ih =>
    intro x hx
    by_cases hk : kv.1 = k
    · simp only [upsert, if_pos hk, List.map_cons, List.mem_cons] at hx
      rcases hx with hx | hx
      · exact Or.inl hx
      · exact Or.inr (by rw [List.map_cons]; exact List.mem_cons_of_mem _ hx)
    · simp only [upsert, if_neg hk, List.map_cons, List.mem_cons] at hx
      rcases hx with hx | hx
      · exact Or.inr (by rw [List.map_cons, hx]; exact List.mem_cons_self _ _)
      · rcases ih x hx with hv | hmem
        · exact Or.inl hv
        · exact Or.inr
            (by rw [List.map_cons]; exact List.mem_cons_of_mem _ hmem)

/-- Upserting an assignment whose port is not yet assigned keeps the
port column duplicate-free. -/
theorem upsert_nodup (k : String) (v : PortAssignment) :
    ∀ l : List (String × PortAssignment),
      (l.map (fun kv => kv.2.port)).Nodup →
      v.port ∉ l.map (fun kv => kv.2.port) →
      ((upsert k v l).map (fun kv => kv.2.port)).Nodup := by
  intro l
  induction l with
  | nil => intro _ _; simp [upsert]
  | cons kv rest ih =>
    intro hnd hnotin
    rw [List.map_cons, List.nodup_cons] at hnd
    rw [List.map_cons, List.mem_cons] at hnotin
    push_neg at hnotin
    by_cases hk : kv.1 = k
    · simp only [upsert, if_pos hk, List.map_cons, List.nodup_cons]
      exact ⟨hnotin.2, hnd.2⟩
    · simp only [upsert, if_neg hk, List.map_cons, List.nodup_cons]
      refine ⟨?_, ih hnd.2 hnotin.2⟩
      intro hmem
      rcases upsert_port_mem k v rest _ hmem with hv | hmem'
      · exact hnotin.1 hv.symm
      · exact hnd.1 hmem'

/-- A port returned by the range scan is outside the exclusion list. -/
theorem find_avail_not_mem {start stop : Nat} {excl : List Nat}
    {avail : Nat → Bool} {p : Nat}
    (h : find_available_port start stop excl avail = some p) : p ∉ excl := by
  unfold find_available_port at h
  have h2 := List.find?_some h
  rw [Bool.and_eq_true, Bool.not_eq_true', decide_eq_false_iff_not] at h2
  exact h2.1

/-- The range-scan path keeps assigned ports duplicate-free. -/
theorem invPorts_scan {reg : PortRegistry}
    (h : (usedPorts reg).Nodup) (avail : Nat → Bool)
    (project service key : String) :
    (usedPorts (PortManager.scanPath avail project service reg key).2).Nodup := by
  unfold PortManager.scanPath
  cases hf : find_available_port reg.rangeStart reg.rangeEnd
      (reg.reserved ++ usedPorts reg) avail with
  | none => exact h
  | some p =>
    have hnot : p ∉ usedPorts reg := by
      intro hmem
      exact find_avail_not_mem hf (List.mem_append.mpr (Or.inr hmem))
    exact upsert_nodup _ _ _ h hnot

/-- The automatic assignment path keeps assigned ports
duplicate-free. -/
theorem invPorts_auto {reg : PortRegistry} (h : (usedPorts reg).Nodup)
    (avail : Nat → Bool) (project service : String) :
    (usedPorts (PortManager.assign_port avail project service none reg).2).Nodup := by
  unfold PortManager.assign_port
  cases hl : reg.assignments.lookup (assignmentKey project service) with
  | some existing =>
    show (usedPorts (if avail existing.port = true then
        (some existing.port, reg)
      else PortManager.assignFresh avail project service none reg
        (assignmentKey project service)).2).Nodup
    by_cases ha : avail existing.port = true
    · rw [if_pos ha]; exact h
    · rw [if_neg ha]
      exact invPorts_scan h avail project service _
  | none => exact invPorts_scan h avail project service _

/-- Releasing an assignment keeps assigned ports duplicate-free. -/
theorem invPorts_release {reg : PortRegistry} (h : (usedPorts reg).Nodup)
    (project service : String) :
    (usedPorts (PortManager.release_port project service reg)).Nodup := by
  unfold PortManager.release_port usedPorts
  exact h.sublist ((List.filter_sublist _).map _)

/-- Runs of automatic assignments and releases keep assigned ports
duplicate-free. -/
theorem invPorts_run : ∀ (ops : List PortOp) (reg : PortRegistry),
    (usedPorts reg).Nodup → (usedPorts (runPorts reg ops)).Nodup := by
  intro ops
  induction ops with
  | nil => intro reg h; exact h
  | cons op rest ih =>
    intro reg h
    cases op with
    | autoAssign avail project service =>
      exact ih _ (invPorts_auto h avail project service)
    | release project service =>
      exact ih _ (invPorts_release h project service)

/-! ## Claim C8 -/

/-- C8 (counterexample): the claim fails as stated.  From the empty
registry, an automatic assignment gives project `a` port 3000; a
second `assign_port` for project `b` with `preferred = 3000` (observed
free at that moment) saves the same port without consulting the
registry.  Observed later while the port is bound, both assignments
report `in_use = true` with equal ports. -/
theorem C8_counterexample :
    ∃ a1 ∈ PortManager.list_assignments envBusy none c8reg,
      ∃ a2 ∈ PortManager.list_assignments envBusy none c8reg,
        a1 ≠ a2 ∧ a1.in_use = true ∧ a2.in_use = true ∧
          a1.port = a2.port := by
  decide

/-- C8 (amended): after any sequence of automatic assignments
(`assign_port` with no preferred port) and releases from the empty
registry, any two distinct assignments have different ports — whatever
the availability observations along the way and at listing time.  The
preferred-port path and `set_port` do not consult the registry and can
duplicate (see the counterexample). -/
theorem C8_auto_assigned_ports_distinct :
    ∀ (ops : List PortOp) (avail : Nat → Bool),
      (PortManager.list_assignments avail none (runPorts {} ops)).Pairwise
        (fun a b => a.port ≠ b.port) := by
  intro ops avail
  have h := invPorts_run ops {} (by simp [usedPorts])
  unfold usedPorts at h
  have h2 := (List.pairwise_map).mp h
  unfold PortManager.list_assignments
  show (List.map (fun a => { a with in_use := !avail a.port })
      (List.map (fun kv => kv.2) (runPorts {} ops).assignments)).Pairwise
    (fun a b => a.port ≠ b.port)
  rw [List.pairwise_map, List.pairwise_map]
  exact h2

/-! ## Lemmas: auth bootstrap -/

/-- `has_any_tokens` is true exactly when some row is unrevoked. -/
theorem has_any_tokens_iff (db : List TokenRow) :
    AuthManager.has_any_tokens db = true ↔ ∃ r ∈ db, r.revoked = false := by
  unfold AuthManager.has_any_tokens
  rw [decide_eq_true_eq, List.length_pos]
  constructor
  · intro h
    rcases List.exists_mem_of_ne_nil _ h with ⟨r, hr⟩
    have := List.of_mem_filter hr
    rw [Bool.not_eq_true'] at this
    exact ⟨r, List.mem_of_mem_filter hr, this⟩
  · intro ⟨r, hr, hrev⟩
    intro hnil
    have : r ∈ db.filter (fun r => !r.revoked) :=
      List.mem_filter.mpr ⟨hr, by rw [hrev]; rfl⟩
    rw [hnil] at this
    exact absurd this (List.not_mem_nil r)

/-! ## Claim C9 -/

/-- C9 (counterexample): the claim fails as stated.  A token table
holding one (revoked) row is not empty, yet
`create_initial_admin_token` still synthesizes an admin token, because
`has_any_tokens` counts only rows with `NOT revoked`. -/
theorem C9_counterexample :
    c9db ≠ [] ∧
      (AuthManager.create_initial_admin_token (fun s => s) "id1" "tok1"
        c9db).1.isSome = true := by
  decide

/-- C9 (amended): `create_initial_admin_token` synthesizes one admin
token if and only if the token table contains no non-revoked row; when
an unrevoked row exists it returns `None` and creates nothing. -/
theorem C9_bootstrap_iff_no_unrevoked_token :
    ∀ (hashFn : String → String) (token_id plain_token : String)
      (db : List TokenRow),
      (AuthManager.create_initial_admin_token hashFn token_id plain_token
          db).1.isSome = true ↔
        ∀ r ∈ db, r.revoked = true := by
  intro hashFn token_id plain_token db
  unfold AuthManager.create_initial_admin_token
  by_cases h : AuthManager.has_any_tokens db = true
  · rw [if_pos h]
    obtain ⟨r, hr, hrev⟩ := (has_any_tokens_iff db).mp h
    simp only [Option.isSome_none, Bool.false_eq_true, false_iff]
    intro hall
    rw [hall r hr] at hrev
    exact Bool.true_eq_false.mp hrev
  · rw [if_neg h]
    simp only [Option.isSome_some, true_iff]
    intro r hr
    by_contra hrev
    rw [Bool.not_eq_true] at hrev
    exact h ((has_any_tokens_iff db).mpr ⟨r, hr, hrev⟩)

/-! ## Claim C7 -/

/-- C7: the claim fails on the code.  When the agent process cannot be
launched, `spawn` catches the exception and returns a state with
status `error` instead of raising, so `_assign_tasks` proceeds and the
claimed task stays `in_progress` with no error recorded.  And when
`spawn` does raise (unknown project), the orchestrator calls
`TaskRepository.fail`, which re-queues the fresh task as `pending` —
not `failed`. -/
theorem C7_spawn_failure_not_marked_failed :
    (taskBy (Orchestrator.assign_tasks c7env c7store) "t1").map
        (fun t => (t.status, t.error)) =
      some (TaskStatus.in_progress, none) ∧
      (taskBy (Orchestrator.assign_tasks c7envRaise c7store) "t1").map
        (fun t => (t.status, t.error)) =
      some (TaskStatus.pending, some "Project not found: p") := by
  decide

end ADT
